import Mathlib

/-!
# TruNotesV2 — session logic of `llama-android.cpp`

A shallow embedding of the session logic of
`android/app/src/main/cpp/llama-android.cpp`:

* `is_complete_utf8` and the streaming buffer `pending_output`;
* the prefix-matching loop, the context shift, the prompt cap, the chunked
  prefill and the autoregressive loop of `nativeGenerate`.

Conventions.  `std::vector` and `std::string` are lists; a `llama_token`
(`int32_t`) is an `Int`; a byte (`unsigned char`) is a `Nat`.  A Java string
made by `NewStringUTF(s.c_str())` is the list of the bytes of that C string,
those of `s` before its first NUL byte.  Sizes are
assumed to fit in `int`, as they do for a context of 2048 positions, so the
`int`/`size_t` conversions of the source are the identity except for the one
cast `(size_t)(n_ctx - 128)`, which is modelled modulo `2^64`.  The inference
engine is external: its answers (sampled tokens, decode status, token text,
the value of the stop flag at each check) are supplied by an `Engine` record.
-/

namespace LlamaAndroid

/-- A token identifier (`llama_token`, an `int32_t`). -/
abbrev llama_token := Int

/-! ## Prefix matcher (lines 214–217 and 242–245) -/

/-- The loop `while (n_keep < old.size() && n_keep < new.size() &&
old[n_keep] == new[n_keep]) n_keep++`, started at `n_keep`.  The first
argument bounds the number of iterations. -/
def prefixLoop (g_past_tokens tokens_list : List llama_token) : Nat → Nat → Nat
  | 0, n_keep => n_keep
  | fuel + 1, n_keep =>
    if n_keep < g_past_tokens.length ∧ n_keep < tokens_list.length ∧
        g_past_tokens[n_keep]? = tokens_list[n_keep]? then
      prefixLoop g_past_tokens tokens_list fuel (n_keep + 1)
    else n_keep

/-- The value of `n_keep` after `size_t n_keep = 0; while (...) n_keep++;`.
The loop body runs at most `g_past_tokens.size()` times. -/
def commonPrefixLength (g_past_tokens tokens_list : List llama_token) : Nat :=
  prefixLoop g_past_tokens tokens_list g_past_tokens.length 0

/-! ## UTF-8 boundary check (lines 168–183) -/

/-- The `for (int i = 0; i < 4 && i < len; i++)` loop of `is_complete_utf8`,
entered at index `i`; the first argument bounds the remaining iterations.
Falling out of the loop returns `false`. -/
def utf8Scan (str : List Nat) : Nat → Nat → Bool
  | 0, _ => false
  | fuel + 1, i =>
    if i < 4 ∧ i < str.length then
      let c := str.getD (str.length - 1 - i) 0
      if c &&& 0xC0 = 0x80 then utf8Scan str fuel (i + 1)
      else if c &&& 0xE0 = 0xC0 then i == 1
      else if c &&& 0xF0 = 0xE0 then i == 2
      else if c &&& 0xF8 = 0xF0 then i == 3
      else true
    else false

/-- Helper `is_complete_utf8`: does the string end with a complete UTF-8
character? -/
def is_complete_utf8 (str : List Nat) : Bool :=
  if str.isEmpty then true
  else if str.getLastD 0 &&& 0x80 = 0 then true
  else utf8Scan str 4 0

/-! ## Streaming buffer (lines 343–350 and 361–365) -/

/-- The bytes `NewStringUTF` reads from `s.c_str()`: those before the first
NUL byte of `s`. -/
def c_str (s : List Nat) : List Nat :=
  s.takeWhile fun b => b != 0

/-- The buffer `pending_output` together with the arguments of the calls of
`onNativeToken` made so far. -/
structure Stream where
  pending_output : List Nat
  callbacks : List (List Nat)

/-- Lines 343–350: `pending_output += piece`, then the buffer is passed to the
callback and cleared when the callback exists, the buffer is not empty and
`is_complete_utf8` holds.  The callback receives
`NewStringUTF(pending_output.c_str())`, the buffer up to its first NUL byte. -/
def streamPiece (mid_callback : Bool) (s : Stream) (piece : List Nat) : Stream :=
  let pending_output := s.pending_output ++ piece
  if mid_callback && !pending_output.isEmpty && is_complete_utf8 pending_output then
    { pending_output := [], callbacks := s.callbacks ++ [c_str pending_output] }
  else
    { pending_output := pending_output, callbacks := s.callbacks }

/-- Lines 361–365: the final flush passes a non-empty buffer to the callback
whatever its content, again as `NewStringUTF(pending_output.c_str())`; the
result is the list of all callback arguments. -/
def flushPending (mid_callback : Bool) (s : Stream) : List (List Nat) :=
  if mid_callback && !s.pending_output.isEmpty then s.callbacks ++ [c_str s.pending_output]
  else s.callbacks

/-- All pieces of a run fed in order, starting from an empty buffer. -/
def streamAll (mid_callback : Bool) (pieces : List (List Nat)) : Stream :=
  pieces.foldl (streamPiece mid_callback) { pending_output := [], callbacks := [] }

/-- A byte string delivered one byte at a time. -/
def streamBytes (mid_callback : Bool) (s : List Nat) : Stream :=
  streamAll mid_callback (s.map fun b => [b])

/-- One UTF-8 encoded character: a lead byte of one of the four classes
followed by the number of continuation bytes (`10xxxxxx`) the lead announces. -/
def IsUtf8Char (c : List Nat) : Prop :=
  (∃ b0, c = [b0] ∧ b0 &&& 0x80 = 0) ∨
  (∃ b0 b1, c = [b0, b1] ∧ b0 &&& 0xE0 = 0xC0 ∧ b1 &&& 0xC0 = 0x80) ∨
  (∃ b0 b1 b2, c = [b0, b1, b2] ∧ b0 &&& 0xF0 = 0xE0 ∧ b1 &&& 0xC0 = 0x80 ∧
    b2 &&& 0xC0 = 0x80) ∨
  (∃ b0 b1 b2 b3, c = [b0, b1, b2, b3] ∧ b0 &&& 0xF8 = 0xF0 ∧ b1 &&& 0xC0 = 0x80 ∧
    b2 &&& 0xC0 = 0x80 ∧ b3 &&& 0xC0 = 0x80)

/-! ## Engine interface -/

/-- Modelled from the spec: the engine's key-value memory for sequence 0, a
map from cache positions to the token held there. -/
abbrev KVCache := Int → Option llama_token

/-- The position range `[p0, p1)` of the engine's memory calls; a negative
`p0` means "from the start", a negative `p1` means "to the end". -/
def inPosRange (p0 p1 pos : Int) : Bool :=
  (decide (p0 < 0) || decide (p0 ≤ pos)) && (decide (p1 < 0) || decide (pos < p1))

/-- Modelled from the spec: `cacheRemove` (`llama_memory_seq_rm`) deletes the
entries at the positions of the range. -/
def llama_memory_seq_rm (cache : KVCache) (p0 p1 : Int) : KVCache :=
  fun pos => if inPosRange p0 p1 pos then none else cache pos

/-- Modelled from the spec: `cacheShift` (`llama_memory_seq_add`) adds `delta`
to the position of every entry of the range; entries outside the range stay. -/
def llama_memory_seq_add (cache : KVCache) (p0 p1 delta : Int) : KVCache :=
  fun pos =>
    if inPosRange p0 p1 (pos - delta) && (cache (pos - delta)).isSome then cache (pos - delta)
    else if inPosRange p0 p1 pos then none
    else cache pos

/-- One entry of a `llama_batch` as filled by `common_batch_add(batch, id,
pos, { 0 }, logits)`. -/
structure BatchEntry where
  token : llama_token
  pos : Int
  logits : Bool
  deriving DecidableEq, Repr

/-- Modelled from the spec: a successful `decode` adds each batch entry at
its position. -/
def llama_decode (cache : KVCache) (batch : List BatchEntry) : KVCache :=
  batch.foldl (fun c b => fun pos => if pos = b.pos then some b.token else c pos) cache

/-- The cache that holds exactly `history[i]` at position `i`. -/
def cacheOf (history : List llama_token) : KVCache :=
  fun pos => if pos < 0 then none else history[pos.toNat]?

/-- The answers of the external engine during one call of `nativeGenerate`. -/
structure Engine where
  /-- token returned by `llama_sampler_sample` in loop iteration `i` -/
  sample : Nat → llama_token
  /-- result of `llama_vocab_is_eog` on a token -/
  is_eog : llama_token → Bool
  /-- result of `common_token_to_piece` on a token, as bytes -/
  token_to_piece : llama_token → List Nat
  /-- does `llama_decode` return 0 for the prefill chunk number `j`? -/
  prefill_decode_ok : Nat → Bool
  /-- does `llama_decode` return 0 in loop iteration `i`? -/
  step_decode_ok : Nat → Bool
  /-- value of `g_stop_generation` read at the top of loop iteration `i` -/
  stop_generation : Nat → Bool

/-! ## Context shift (lines 221–246) -/

/-- Lines 226–227: `n_discard = (n_past - n_keep) / 2`, raised to 128.  At the
call `n_keep ≤ n_past`, so the subtraction does not wrap. -/
def discardCount (n_past n_keep : Nat) : Nat :=
  let n_discard := (n_past - n_keep) / 2
  if n_discard < 128 then 128 else n_discard

/-- Lines 237–239: the guarded `erase` of `[n_keep, n_keep + n_discard)`. -/
def eraseDiscarded (g_past_tokens : List llama_token) (n_keep n_discard : Nat) :
    List llama_token :=
  if n_keep + n_discard < g_past_tokens.length then
    g_past_tokens.take n_keep ++ g_past_tokens.drop (n_keep + n_discard)
  else g_past_tokens

/-- State after the block of lines 221–246. -/
structure ShiftResult where
  /-- was the `if` of line 225 entered? -/
  performed : Bool
  n_discard : Nat
  /-- the history after line 239 (the re-alignment does not change it) -/
  g_past_tokens : List llama_token
  cache : KVCache
  /-- value of `n_keep` after line 246 -/
  n_keep : Nat

/-- Lines 221–246 of `nativeGenerate`. -/
def contextShift (n_ctx : Int) (g_past_tokens : List llama_token) (cache : KVCache)
    (tokens_list : List llama_token) (n_keep : Nat) : ShiftResult :=
  let n_past : Int := g_past_tokens.length
  let n_new : Int := (tokens_list.length : Int) - (n_keep : Int)
  if n_past + n_new > n_ctx - 64 then
    let n_discard := discardCount g_past_tokens.length n_keep
    let cache1 := llama_memory_seq_rm cache n_keep ((n_keep : Int) + n_discard)
    let cache2 := llama_memory_seq_add cache1 ((n_keep : Int) + n_discard) (-1) (-(n_discard : Int))
    let past := eraseDiscarded g_past_tokens n_keep n_discard
    { performed := true, n_discard := n_discard, g_past_tokens := past, cache := cache2,
      n_keep := commonPrefixLength past tokens_list }
  else
    { performed := false, n_discard := 0, g_past_tokens := g_past_tokens, cache := cache,
      n_keep := n_keep }

/-! ## Prompt cap and prefill (lines 254–285) -/

/-- The effect of `std::vector::resize(n)`: cut to `n` elements, or padded with
zeros up to `n`. -/
def resize (v : List llama_token) (n : Nat) : List llama_token :=
  v.take n ++ List.replicate (n - v.length) 0

/-- Lines 258–261: the prompt is cut to `(size_t)(n_ctx - 128)` tokens. -/
def capPrompt (n_ctx : Int) (tokens_list : List llama_token) : List llama_token :=
  let cap := ((n_ctx - 128) % 2 ^ 64).toNat
  if tokens_list.length > cap then resize tokens_list cap else tokens_list

/-- Lines 272–276: the batch of `n_eval` tokens starting at index `i`.  Inside
the loop `tokens_list` is not empty, so `size() - 1` does not wrap. -/
def prefillBatch (tokens_list : List llama_token) (i n_eval : Nat) : List BatchEntry :=
  (List.range n_eval).map fun j =>
    { token := tokens_list.getD (i + j) 0, pos := ((i + j : Nat) : Int),
      logits := decide (i + j = tokens_list.length - 1) }

/-- Outcome of the prefill: whether every decode returned 0, the cache, and
the batches passed to `llama_decode` in order. -/
structure PrefillResult where
  ok : Bool
  cache : KVCache
  batches : List (List BatchEntry)

/-- The loop of lines 269–283, entered at index `i`; the first argument bounds
the remaining iterations. -/
def prefillLoop (e : Engine) (tokens_list : List llama_token) :
    Nat → Nat → KVCache → List (List BatchEntry) → PrefillResult
  | 0, _, cache, batches => { ok := true, cache := cache, batches := batches }
  | fuel + 1, i, cache, batches =>
    if i < tokens_list.length then
      let n_eval := min 128 (tokens_list.length - i)
      let batch := prefillBatch tokens_list i n_eval
      if e.prefill_decode_ok batches.length then
        prefillLoop e tokens_list fuel (i + 128) (llama_decode cache batch) (batches ++ [batch])
      else
        { ok := false, cache := cache, batches := batches ++ [batch] }
    else { ok := true, cache := cache, batches := batches }

/-- Lines 263–285: prefill of `tokens_list` from index `n_keep`.  Every
iteration advances the index by 128, so `tokens_list.size()` iterations
suffice. -/
def prefill (e : Engine) (tokens_list : List llama_token) (n_keep : Nat) (cache : KVCache) :
    PrefillResult :=
  prefillLoop e tokens_list tokens_list.length n_keep cache []

/-! ## Autoregressive loop (lines 325–358) -/

/-- Variables of the sampling loop, with the engine calls made so far. -/
structure GenState where
  response : List Nat
  stream : Stream
  generated_tokens : List llama_token
  n_cur : Int
  cache : KVCache
  /-- number of calls of `llama_sampler_sample` -/
  n_sample : Nat
  /-- batches passed to `llama_decode` by the loop, in order -/
  decodes : List (List BatchEntry)

/-- The loop `for (int i = 0; i < n_len; i++)` of lines 331–358, entered at
iteration `i` with `n_len - i` iterations remaining (first argument). -/
def generateLoop (e : Engine) (mid_callback : Bool) : Nat → Nat → GenState → GenState
  | 0, _, s => s
  | remaining + 1, i, s =>
    if e.stop_generation i then s
    else
      let new_token_id := e.sample i
      if e.is_eog new_token_id then { s with n_sample := s.n_sample + 1 }
      else
        let piece := e.token_to_piece new_token_id
        let batch : List BatchEntry := [{ token := new_token_id, pos := s.n_cur, logits := true }]
        let s1 : GenState :=
          { response := s.response ++ piece,
            stream := streamPiece mid_callback s.stream piece,
            generated_tokens := s.generated_tokens ++ [new_token_id],
            n_cur := s.n_cur + 1,
            cache := s.cache,
            n_sample := s.n_sample + 1,
            decodes := s.decodes ++ [batch] }
        if e.step_decode_ok i then
          generateLoop e mid_callback remaining (i + 1) { s1 with cache := llama_decode s.cache batch }
        else s1

/-! ## `nativeGenerate` (lines 187–374) -/

/-- The global state: whether model and context exist, the context size
`llama_n_ctx(g_context)`, the history `g_past_tokens` and the engine's cache. -/
structure Session where
  loaded : Bool
  n_ctx : Int
  g_past_tokens : List llama_token
  cache : KVCache

/-- The returned string: one of the three error messages or the bytes of the
C string made from `response`. -/
inductive Ret where
  | model_not_loaded
  | no_tokens
  | prefill_decode_failed
  | text (response : List Nat)
  deriving DecidableEq, Repr

/-- Everything observable of one call of `nativeGenerate`. -/
structure GenerateResult where
  session : Session
  ret : Ret
  /-- arguments of the `onNativeToken` calls, in order -/
  callbacks : List (List Nat)
  /-- batches decoded during prefill -/
  prefill_batches : List (List BatchEntry)
  /-- batches decoded by the sampling loop -/
  step_batches : List (List BatchEntry)
  /-- number of calls of `llama_sampler_sample` -/
  n_sample : Nat

/-- The loop variables at line 331: empty `response`, `pending_output` and
`generated_tokens`, and `n_cur = tokens_list.size()`. -/
def genInit (tokens_list : List llama_token) (cache : KVCache) : GenState :=
  { response := [], stream := { pending_output := [], callbacks := [] },
    generated_tokens := [], n_cur := tokens_list.length, cache := cache,
    n_sample := 0, decodes := [] }

/-- Lines 248–252: entries past the re-aligned `n_keep` are removed from the
cache when the history is longer than `n_keep`. -/
def trimCache (sh : ShiftResult) : KVCache :=
  if sh.n_keep < sh.g_past_tokens.length then llama_memory_seq_rm sh.cache sh.n_keep (-1)
  else sh.cache

/-- Lines 287–373: the sampling loop, the final flush, the history update
`g_past_tokens = tokens_list ++ generated_tokens` and the returned text
`NewStringUTF(response.c_str())`, which is `response` up to its first NUL
byte. -/
def sampleAndFinish (e : Engine) (s : Session) (mid_callback : Bool)
    (tokens_list : List llama_token) (pf : PrefillResult) (nPredict : Int) : GenerateResult :=
  let g := generateLoop e mid_callback nPredict.toNat 0 (genInit tokens_list pf.cache)
  { session := { s with g_past_tokens := tokens_list ++ g.generated_tokens, cache := g.cache },
    ret := Ret.text (c_str g.response),
    callbacks := flushPending mid_callback g.stream,
    prefill_batches := pf.batches, step_batches := g.decodes, n_sample := g.n_sample }

/-- The function `nativeGenerate`, with `tokens_list` the result of `common_tokenize` on
the prompt, `nPredict` the token budget and `mid_callback` telling whether
the method `onNativeToken` was found. -/
def nativeGenerate (e : Engine) (s : Session) (mid_callback : Bool)
    (tokens_list : List llama_token) (nPredict : Int) : GenerateResult :=
  if !s.loaded then
    { session := s, ret := Ret.model_not_loaded, callbacks := [], prefill_batches := [],
      step_batches := [], n_sample := 0 }
  else if tokens_list.isEmpty then
    { session := s, ret := Ret.no_tokens, callbacks := [], prefill_batches := [],
      step_batches := [], n_sample := 0 }
  else
    let sh := contextShift s.n_ctx s.g_past_tokens s.cache tokens_list
      (commonPrefixLength s.g_past_tokens tokens_list)
    let g_past_tokens := resize sh.g_past_tokens sh.n_keep
    let tokens_list := capPrompt s.n_ctx tokens_list
    let pf := prefill e tokens_list sh.n_keep (trimCache sh)
    if !pf.ok then
      { session := { s with g_past_tokens := g_past_tokens, cache := pf.cache },
        ret := Ret.prefill_decode_failed, callbacks := [], prefill_batches := pf.batches,
        step_batches := [], n_sample := 0 }
    else sampleAndFinish e s mid_callback tokens_list pf nPredict

/-- The tokens sampled in loop iterations `i, …, i + k - 1`. -/
def sampledTokens (e : Engine) (i k : Nat) : List llama_token :=
  (List.range' i k).map e.sample

/-- The text of a token sequence: the concatenation of the tokens' pieces. -/
def textOf (e : Engine) (tokens : List llama_token) : List Nat :=
  (tokens.map e.token_to_piece).flatten

/-- The batch entry the prefill submits for index `i` of `tokens_list`: the
token, its position `i`, and the output flag, set only at the last index. -/
def prefillEntry (tokens_list : List llama_token) (i : Nat) : BatchEntry :=
  { token := tokens_list.getD i 0, pos := (i : Int),
    logits := decide (i = tokens_list.length - 1) }

/-! ## Concrete scenarios -/

/-- A scripted engine: iteration `i` samples token `10 + i`, never an
end-of-generation token, whose text is the single byte `65 + i`; every
prefill decode succeeds; `step_ok` and `stop` give the status of the decode
and the value of the stop flag in each iteration. -/
def scriptedEngine (step_ok stop : Nat → Bool) : Engine :=
  { sample := fun i => 10 + (i : Int),
    is_eog := fun _ => false,
    token_to_piece := fun t => [t.toNat + 55],
    prefill_decode_ok := fun _ => true,
    step_decode_ok := step_ok,
    stop_generation := stop }

/-- The scripted engine with a byte token: token `11` has the text `0x00`,
every other token `t` the single byte `t + 55`. -/
def nulEngine (step_ok stop : Nat → Bool) : Engine :=
  { sample := fun i => 10 + (i : Int),
    is_eog := fun _ => false,
    token_to_piece := fun t => if t = 11 then [0] else [t.toNat + 55],
    prefill_decode_ok := fun _ => true,
    step_decode_ok := step_ok,
    stop_generation := stop }

/-- A loaded session with a context of 2048 positions (the value set by
`nativeLoadModel`) whose cache holds `history` position by position. -/
def sessionWith (history : List llama_token) : Session :=
  { loaded := true, n_ctx := 2048, g_past_tokens := history, cache := cacheOf history }

/-- A history of 1900 tokens: 1800 tokens `1`, then 100 tokens `2`. -/
def history1900 : List llama_token := List.replicate 1800 1 ++ List.replicate 100 2

/-- A prompt of 2000 tokens that shares its first 1800 tokens with
`history1900`. -/
def prompt2000 : List llama_token := List.replicate 1800 1 ++ List.replicate 200 3

/-- A history of 2000 tokens: 50 tokens `1`, then 1950 tokens `2`. -/
def history2000 : List llama_token := List.replicate 50 1 ++ List.replicate 1950 2

/-- A prompt of 250 tokens that shares its first 50 tokens with `history2000`. -/
def prompt250 : List llama_token := List.replicate 50 1 ++ List.replicate 200 3

/-- A history of 2000 identical tokens, as left by a turn that filled the
context almost completely. -/
def fullHistory : List llama_token := List.replicate 2000 1

/-- The next prompt of the conversation: the whole of `fullHistory` followed
by 10 new tokens. -/
def nextPrompt : List llama_token := fullHistory ++ List.replicate 10 2

/-! ## Lemmas on the prefix matcher -/

theorem prefixLoop_ge (old new : List llama_token) (fuel n : Nat) :
    n ≤ prefixLoop old new fuel n := by
  induction fuel generalizing n with
  | zero => simp [prefixLoop]
  | succ f ih =>
    unfold prefixLoop
    split
    · exact Nat.le_trans (Nat.le_succ n) (ih (n + 1))
    · exact Nat.le_refl n

theorem prefixLoop_le (old new : List llama_token) (fuel n : Nat)
    (h1 : n ≤ old.length) (h2 : n ≤ new.length) :
    prefixLoop old new fuel n ≤ old.length ∧ prefixLoop old new fuel n ≤ new.length := by
  induction fuel generalizing n with
  | zero => simpa [prefixLoop] using ⟨h1, h2⟩
  | succ f ih =>
    unfold prefixLoop
    split
    · rename_i hc
      exact ih (n + 1) hc.1 hc.2.1
    · exact ⟨h1, h2⟩

theorem prefixLoop_agree (old new : List llama_token) (fuel n : Nat)
    (h : ∀ i, i < n → old[i]? = new[i]?) :
    ∀ i, i < prefixLoop old new fuel n → old[i]? = new[i]? := by
  induction fuel generalizing n with
  | zero => simpa [prefixLoop] using h
  | succ f ih =>
    unfold prefixLoop
    split
    · rename_i hc
      apply ih (n + 1)
      intro i hi
      rcases Nat.lt_succ_iff_lt_or_eq.mp hi with hlt | heq
      · exact h i hlt
      · rw [heq]; exact hc.2.2
    · exact h

/-- When the loop stops with enough iterations allowed, its condition is false
at the final index. -/
theorem prefixLoop_stop (old new : List llama_token) (fuel n : Nat)
    (hf : old.length ≤ n + fuel) :
    ¬ (prefixLoop old new fuel n < old.length ∧ prefixLoop old new fuel n < new.length ∧
        old[prefixLoop old new fuel n]? = new[prefixLoop old new fuel n]?) := by
  induction fuel generalizing n with
  | zero =>
    simp only [prefixLoop]
    intro hc
    omega
  | succ f ih =>
    unfold prefixLoop
    split
    · exact ih (n + 1) (by omega)
    · assumption

theorem commonPrefixLength_le (old new : List llama_token) :
    commonPrefixLength old new ≤ old.length ∧ commonPrefixLength old new ≤ new.length :=
  prefixLoop_le old new old.length 0 (Nat.zero_le _) (Nat.zero_le _)

theorem commonPrefixLength_agree (old new : List llama_token) :
    ∀ i, i < commonPrefixLength old new → old[i]? = new[i]? :=
  prefixLoop_agree old new old.length 0 (fun i hi => absurd hi (Nat.not_lt_zero i))

theorem commonPrefixLength_stop (old new : List llama_token)
    (h1 : commonPrefixLength old new < old.length)
    (h2 : commonPrefixLength old new < new.length) :
    old[commonPrefixLength old new]? ≠ new[commonPrefixLength old new]? := by
  intro heq
  exact prefixLoop_stop old new old.length 0 (by omega) ⟨h1, h2, heq⟩

theorem commonPrefixLength_greatest (old new : List llama_token) (k : Nat)
    (h1 : k ≤ old.length) (h2 : k ≤ new.length)
    (h : ∀ i, i < k → old[i]? = new[i]?) : k ≤ commonPrefixLength old new := by
  by_contra hlt
  have hlt : commonPrefixLength old new < k := Nat.lt_of_not_le hlt
  exact commonPrefixLength_stop old new (by omega) (by omega) (h _ hlt)

/-! ## Lemmas on the streaming buffer -/

theorem c_str_cons (a : Nat) (l : List Nat) :
    c_str (a :: l) = if a = 0 then [] else a :: c_str l := by
  unfold c_str
  rw [List.takeWhile_cons]
  by_cases h : a = 0 <;> simp [h]

/-- A string without a NUL byte is passed whole. -/
theorem c_str_of_not_mem (s : List Nat) (h : 0 ∉ s) : c_str s = s := by
  induction s with
  | nil => rfl
  | cons a l ih =>
    have ha : a ≠ 0 := fun h0 => h (h0 ▸ List.mem_cons_self a l)
    have hl : 0 ∉ l := fun hm => h (List.mem_cons_of_mem a hm)
    rw [c_str_cons, if_neg ha, ih hl]

/-- Every callback argument is a released buffer cut at its first NUL byte,
and the released buffers together with the pending bytes are the bytes fed. -/
theorem streamPiece_buffers (cb : Bool) (s : Stream) (piece : List Nat)
    (bs : List (List Nat)) (hs : s.callbacks = bs.map c_str) :
    ∃ bs' : List (List Nat), (streamPiece cb s piece).callbacks = bs'.map c_str ∧
      bs'.flatten ++ (streamPiece cb s piece).pending_output =
        bs.flatten ++ s.pending_output ++ piece := by
  unfold streamPiece
  simp only []
  split
  · exact ⟨bs ++ [s.pending_output ++ piece], by simp [hs], by simp [List.append_assoc]⟩
  · exact ⟨bs, hs, by simp [List.append_assoc]⟩

theorem streamFold_buffers (cb : Bool) (pieces : List (List Nat)) (s : Stream)
    (bs : List (List Nat)) (hs : s.callbacks = bs.map c_str) :
    ∃ bs' : List (List Nat), (pieces.foldl (streamPiece cb) s).callbacks = bs'.map c_str ∧
      bs'.flatten ++ (pieces.foldl (streamPiece cb) s).pending_output =
        bs.flatten ++ s.pending_output ++ pieces.flatten := by
  induction pieces generalizing s bs with
  | nil => exact ⟨bs, hs, by simp⟩
  | cons p ps ih =>
    obtain ⟨bs1, h1, h2⟩ := streamPiece_buffers cb s p bs hs
    obtain ⟨bs2, h3, h4⟩ := ih (streamPiece cb s p) bs1 h1
    refine ⟨bs2, by rw [List.foldl_cons]; exact h3, ?_⟩
    rw [List.foldl_cons, h4, h2]
    simp [List.append_assoc]

theorem flushPending_flatten (s : Stream) :
    (flushPending true s).flatten = s.callbacks.flatten ++ c_str s.pending_output := by
  unfold flushPending
  cases h : s.pending_output with
  | nil => simp [c_str]
  | cons a l => simp

/-- The chunks of a whole run, final flush included, are buffers cut at their
first NUL byte, and the buffers concatenate to the bytes fed. -/
theorem flush_buffers (fragments : List (List Nat)) :
    ∃ buffers : List (List Nat), buffers.flatten = fragments.flatten ∧
      flushPending true (streamAll true fragments) = buffers.map c_str := by
  obtain ⟨bs, hc, hf⟩ := streamFold_buffers true fragments
    { pending_output := [], callbacks := [] } [] rfl
  simp only [List.flatten_nil, List.nil_append] at hf
  unfold streamAll flushPending
  by_cases hp : (fragments.foldl (streamPiece true)
      { pending_output := [], callbacks := [] }).pending_output = []
  · refine ⟨bs, ?_, ?_⟩
    · rw [← hf, hp, List.append_nil]
    · simp [hp, hc]
  · refine ⟨bs ++ [(fragments.foldl (streamPiece true)
        { pending_output := [], callbacks := [] }).pending_output], ?_, ?_⟩
    · rw [← hf]; simp
    · have he : (fragments.foldl (streamPiece true)
          { pending_output := [], callbacks := [] }).pending_output.isEmpty = false := by
        rw [List.isEmpty_eq_false]; exact hp
      simp [he, hc]

/-- Without a NUL byte in the input every chunk is a whole buffer. -/
theorem flush_flatten_of_no_nul (fragments : List (List Nat))
    (hnul : ∀ f ∈ fragments, 0 ∉ f) :
    (flushPending true (streamAll true fragments)).flatten = fragments.flatten := by
  obtain ⟨buffers, hfl, hch⟩ := flush_buffers fragments
  have hz : 0 ∉ fragments.flatten := by
    intro hm
    obtain ⟨f, hf, hb⟩ := List.mem_flatten.mp hm
    exact hnul f hf hb
  have hid : buffers.map c_str = buffers := by
    have : ∀ b ∈ buffers, c_str b = id b := by
      intro b hb
      apply c_str_of_not_mem
      intro h0
      exact hz (hfl ▸ List.mem_flatten.mpr ⟨b, hb, h0⟩)
    rw [List.map_congr_left this, List.map_id]
  rw [hch, hid, hfl]

theorem nonzero_of_land (b m v : Nat) (h : b &&& m = v) (hv : v ≠ 0) : b ≠ 0 := by
  intro hb
  rw [hb, Nat.zero_and] at h
  exact hv h.symm

/-- Masking twice: `c &&& m2` is determined by `c &&& m1` when `m2` is part of `m1`. -/
theorem land_narrow (c m1 m2 v : Nat) (h : c &&& m1 = v) : c &&& (m1 &&& m2) = v &&& m2 := by
  rw [← Nat.land_assoc, h]

theorem cont_not_ascii (b : Nat) (h : b &&& 0xC0 = 0x80) : b &&& 0x80 = 0x80 := by
  have := land_narrow b 0xC0 0x80 0x80 h
  simpa using this

theorem lead2_facts (b : Nat) (h : b &&& 0xE0 = 0xC0) :
    b &&& 0x80 = 0x80 ∧ b &&& 0xC0 = 0xC0 := by
  have h1 := land_narrow b 0xE0 0x80 0xC0 h
  have h2 := land_narrow b 0xE0 0xC0 0xC0 h
  exact ⟨by simpa using h1, by simpa using h2⟩

theorem lead3_facts (b : Nat) (h : b &&& 0xF0 = 0xE0) :
    b &&& 0x80 = 0x80 ∧ b &&& 0xC0 = 0xC0 ∧ b &&& 0xE0 = 0xE0 := by
  have h1 := land_narrow b 0xF0 0x80 0xE0 h
  have h2 := land_narrow b 0xF0 0xC0 0xE0 h
  have h3 := land_narrow b 0xF0 0xE0 0xE0 h
  exact ⟨by simpa using h1, by simpa using h2, by simpa using h3⟩

theorem lead4_facts (b : Nat) (h : b &&& 0xF8 = 0xF0) :
    b &&& 0x80 = 0x80 ∧ b &&& 0xC0 = 0xC0 ∧ b &&& 0xE0 = 0xE0 ∧ b &&& 0xF0 = 0xF0 := by
  have h1 := land_narrow b 0xF8 0x80 0xF0 h
  have h2 := land_narrow b 0xF8 0xC0 0xF0 h
  have h3 := land_narrow b 0xF8 0xE0 0xF0 h
  have h4 := land_narrow b 0xF8 0xF0 0xF0 h
  exact ⟨by simpa using h1, by simpa using h2, by simpa using h3, by simpa using h4⟩

/-- Feeding the bytes of one character into an empty buffer releases exactly
that character, after its last byte and not before; the callback receives it
as a C string. -/
theorem stream_char (cs : List (List Nat)) (c : List Nat) (hc : IsUtf8Char c) :
    (c.map fun b => [b]).foldl (streamPiece true) { pending_output := [], callbacks := cs } =
      { pending_output := [], callbacks := cs ++ [c_str c] } := by
  rcases hc with ⟨b0, rfl, h0⟩ | ⟨b0, b1, rfl, h0, h1⟩ | ⟨b0, b1, b2, rfl, h0, h1, h2⟩ |
    ⟨b0, b1, b2, b3, rfl, h0, h1, h2, h3⟩
  · simp [streamPiece, is_complete_utf8, h0]
  · have f0 := lead2_facts b0 h0
    have f1 := cont_not_ascii b1 h1
    simp [streamPiece, is_complete_utf8, utf8Scan, h0, h1, f0.1, f0.2, f1]
  · have f0 := lead3_facts b0 h0
    have f1 := cont_not_ascii b1 h1
    have f2 := cont_not_ascii b2 h2
    simp [streamPiece, is_complete_utf8, utf8Scan, h0, h1, h2, f0.1, f0.2.1, f0.2.2, f1, f2]
  · have f0 := lead4_facts b0 h0
    have f1 := cont_not_ascii b1 h1
    have f2 := cont_not_ascii b2 h2
    have f3 := cont_not_ascii b3 h3
    simp [streamPiece, is_complete_utf8, utf8Scan, h0, h1, h2, h3, f0.1, f0.2.1, f0.2.2.1,
      f0.2.2.2, f1, f2, f3]

theorem stream_chars (chars : List (List Nat)) (hc : ∀ c ∈ chars, IsUtf8Char c)
    (cs : List (List Nat)) :
    (chars.flatten.map fun b => [b]).foldl (streamPiece true)
        { pending_output := [], callbacks := cs } =
      { pending_output := [], callbacks := cs ++ chars.map c_str } := by
  induction chars generalizing cs with
  | nil => simp
  | cons c rest ih =>
    rw [List.flatten_cons, List.map_append, List.foldl_append,
      stream_char cs c (hc c (List.mem_cons_self c rest)),
      ih (fun d hd => hc d (List.mem_cons_of_mem c hd))]
    simp

/-- The loop result is determined by its characterisation. -/
theorem commonPrefixLength_eq (old new : List llama_token) (k : Nat)
    (h1 : k ≤ old.length) (h2 : k ≤ new.length)
    (hagree : ∀ i, i < k → old[i]? = new[i]?)
    (hstop : k < old.length → k < new.length → old[k]? ≠ new[k]?) :
    commonPrefixLength old new = k := by
  apply Nat.le_antisymm
  · by_contra hlt
    have hlt : k < commonPrefixLength old new := Nat.lt_of_not_le hlt
    have hb := commonPrefixLength_le old new
    exact hstop (by omega) (by omega) (commonPrefixLength_agree old new k hlt)
  · exact commonPrefixLength_greatest old new k h1 h2 hagree

/-- As a C string a character is passed whole, unless it is the character
U+0000, whose single byte `0x00` ends the string at once. -/
theorem c_str_utf8Char (c : List Nat) (hc : IsUtf8Char c) :
    c_str c = c ∨ (c = [0] ∧ c_str c = []) := by
  rcases hc with ⟨b0, rfl, _⟩ | ⟨b0, b1, rfl, h0, h1⟩ | ⟨b0, b1, b2, rfl, h0, h1, h2⟩ |
    ⟨b0, b1, b2, b3, rfl, h0, h1, h2, h3⟩
  · by_cases hb : b0 = 0
    · right
      subst hb
      exact ⟨rfl, rfl⟩
    · left
      rw [c_str_cons, if_neg hb]
      rfl
  · left
    apply c_str_of_not_mem
    have n0 := nonzero_of_land b0 _ _ h0 (by decide)
    have n1 := nonzero_of_land b1 _ _ h1 (by decide)
    simp only [List.mem_cons, List.mem_singleton, List.not_mem_nil, or_false, not_or]
    exact ⟨fun h => n0 h.symm, fun h => n1 h.symm⟩
  · left
    apply c_str_of_not_mem
    have n0 := nonzero_of_land b0 _ _ h0 (by decide)
    have n1 := nonzero_of_land b1 _ _ h1 (by decide)
    have n2 := nonzero_of_land b2 _ _ h2 (by decide)
    simp only [List.mem_cons, List.mem_singleton, List.not_mem_nil, or_false, not_or]
    exact ⟨fun h => n0 h.symm, fun h => n1 h.symm, fun h => n2 h.symm⟩
  · left
    apply c_str_of_not_mem
    have n0 := nonzero_of_land b0 _ _ h0 (by decide)
    have n1 := nonzero_of_land b1 _ _ h1 (by decide)
    have n2 := nonzero_of_land b2 _ _ h2 (by decide)
    have n3 := nonzero_of_land b3 _ _ h3 (by decide)
    simp only [List.mem_cons, List.mem_singleton, List.not_mem_nil, or_false, not_or]
    exact ⟨fun h => n0 h.symm, fun h => n1 h.symm, fun h => n2 h.symm, fun h => n3 h.symm⟩

/-- A prompt that extends the history matches all of it. -/
theorem commonPrefixLength_extend (old ext : List llama_token) :
    commonPrefixLength old (old ++ ext) = old.length := by
  apply commonPrefixLength_eq
  · exact Nat.le_refl _
  · simp
  · intro i hi
    rw [List.getElem?_append_left hi]
  · intro h; omega

/-! ## Lemmas on the context shift -/

theorem discardCount_eq_max (n_past n_keep : Nat) :
    discardCount n_past n_keep = max 128 ((n_past - n_keep) / 2) := by
  unfold discardCount
  simp only []
  split <;> omega

theorem contextShift_performed (n_ctx : Int) (H : List llama_token) (cache : KVCache)
    (T : List llama_token) (keep : Nat) :
    (contextShift n_ctx H cache T keep).performed = true ↔
      (H.length : Int) + ((T.length : Int) - (keep : Int)) > n_ctx - 64 := by
  unfold contextShift
  simp only []
  split <;> simp_all

theorem contextShift_n_discard (n_ctx : Int) (H : List llama_token) (cache : KVCache)
    (T : List llama_token) (keep : Nat)
    (h : (contextShift n_ctx H cache T keep).performed = true) :
    (contextShift n_ctx H cache T keep).n_discard = discardCount H.length keep := by
  unfold contextShift at h ⊢
  simp only [] at h ⊢
  split
  · rfl
  · rename_i hc; simp [hc] at h

theorem contextShift_history (n_ctx : Int) (H : List llama_token) (cache : KVCache)
    (T : List llama_token) (keep : Nat)
    (h : (contextShift n_ctx H cache T keep).performed = true) :
    (contextShift n_ctx H cache T keep).g_past_tokens =
      eraseDiscarded H keep (discardCount H.length keep) := by
  unfold contextShift at h ⊢
  simp only [] at h ⊢
  split
  · rfl
  · rename_i hc; simp [hc] at h

theorem commonPrefixLength_self (old : List llama_token) :
    commonPrefixLength old old = old.length := by
  have h := commonPrefixLength_extend old []
  rwa [List.append_nil] at h

/-- Two sequences that share `A` and differ right after it match exactly `A`. -/
theorem commonPrefixLength_fork (A B C : List llama_token) (h : B[0]? ≠ C[0]?) :
    commonPrefixLength (A ++ B) (A ++ C) = A.length := by
  apply commonPrefixLength_eq
  · simp
  · simp
  · intro i hi
    rw [List.getElem?_append_left hi, List.getElem?_append_left hi]
  · intro _ _
    rw [List.getElem?_append_right (Nat.le_refl _), List.getElem?_append_right (Nat.le_refl _),
      Nat.sub_self]
    exact h

/-! ## Lemmas on the autoregressive loop -/

/-- One successful iteration of the loop. -/
theorem generateLoop_step (e : Engine) (cb : Bool) (r i : Nat) (s : GenState)
    (h1 : e.stop_generation i = false) (h2 : e.is_eog (e.sample i) = false)
    (h3 : e.step_decode_ok i = true) :
    generateLoop e cb (r + 1) i s =
      generateLoop e cb r (i + 1)
        { response := s.response ++ e.token_to_piece (e.sample i),
          stream := streamPiece cb s.stream (e.token_to_piece (e.sample i)),
          generated_tokens := s.generated_tokens ++ [e.sample i],
          n_cur := s.n_cur + 1,
          cache := llama_decode s.cache [{ token := e.sample i, pos := s.n_cur, logits := true }],
          n_sample := s.n_sample + 1,
          decodes := s.decodes ++ [[{ token := e.sample i, pos := s.n_cur, logits := true }]] } := by
  rw [generateLoop]
  simp [h1, h2, h3]

/-- An iteration whose decode fails: the token and its text are already
recorded when the loop is left. -/
theorem generateLoop_decode_fail (e : Engine) (cb : Bool) (r i : Nat) (s : GenState)
    (h1 : e.stop_generation i = false) (h2 : e.is_eog (e.sample i) = false)
    (h3 : e.step_decode_ok i = false) :
    generateLoop e cb (r + 1) i s =
      { response := s.response ++ e.token_to_piece (e.sample i),
        stream := streamPiece cb s.stream (e.token_to_piece (e.sample i)),
        generated_tokens := s.generated_tokens ++ [e.sample i],
        n_cur := s.n_cur + 1,
        cache := s.cache,
        n_sample := s.n_sample + 1,
        decodes := s.decodes ++ [[{ token := e.sample i, pos := s.n_cur, logits := true }]] } := by
  rw [generateLoop]
  simp [h1, h2, h3]

/-- An iteration that finds the stop flag set leaves the loop at once. -/
theorem generateLoop_stop (e : Engine) (cb : Bool) (r i : Nat) (s : GenState)
    (h1 : e.stop_generation i = true) : generateLoop e cb (r + 1) i s = s := by
  rw [generateLoop]
  simp [h1]

/-- Running `k` iterations in which the stop flag is clear, the sampled token is not
an end-of-generation token and the decode succeeds. -/
theorem generateLoop_run (e : Engine) (cb : Bool) (k r i : Nat) (s : GenState)
    (h : ∀ j, j < k → e.stop_generation (i + j) = false ∧
      e.is_eog (e.sample (i + j)) = false ∧ e.step_decode_ok (i + j) = true) :
    ∃ s' : GenState, generateLoop e cb (k + r) i s = generateLoop e cb r (i + k) s' ∧
      s'.response = s.response ++ textOf e (sampledTokens e i k) ∧
      s'.generated_tokens = s.generated_tokens ++ sampledTokens e i k ∧
      s'.n_sample = s.n_sample + k ∧
      s'.decodes.length = s.decodes.length + k ∧
      s'.n_cur = s.n_cur + (k : Int) ∧
      s'.stream =
        ((sampledTokens e i k).map e.token_to_piece).foldl (streamPiece cb) s.stream := by
  induction k generalizing i s with
  | zero =>
    refine ⟨s, ?_, ?_, ?_, ?_, ?_, ?_, ?_⟩ <;> simp [sampledTokens, textOf]
  | succ k ih =>
    have h0 := h 0 (Nat.succ_pos k)
    simp only [Nat.add_zero] at h0
    have hstep : ∀ j, j < k → e.stop_generation (i + 1 + j) = false ∧
        e.is_eog (e.sample (i + 1 + j)) = false ∧ e.step_decode_ok (i + 1 + j) = true := by
      intro j hj
      have := h (j + 1) (Nat.succ_lt_succ hj)
      rwa [show i + (j + 1) = i + 1 + j by omega] at this
    have hk : k + 1 + r = (k + r) + 1 := by omega
    rw [hk, generateLoop_step e cb (k + r) i s h0.1 h0.2.1 h0.2.2]
    obtain ⟨s', heq, hr, hg, hn, hd, hc, hst⟩ := ih (i + 1) _ hstep
    refine ⟨s', ?_, ?_, ?_, ?_, ?_, ?_, ?_⟩
    · rw [heq, show i + 1 + k = i + (k + 1) by omega]
    · rw [hr]
      simp [sampledTokens, textOf, List.range'_succ, List.append_assoc]
    · rw [hg]
      simp [sampledTokens, List.range'_succ, List.append_assoc]
    · rw [hn]; simp only []; omega
    · rw [hd]; simp only [List.length_append, List.length_singleton]; omega
    · rw [hc]; simp only []; push_cast; omega
    · rw [hst]
      simp [sampledTokens, List.range'_succ]

theorem generateLoop_generated_le (e : Engine) (cb : Bool) (n i : Nat) (s : GenState) :
    (generateLoop e cb n i s).generated_tokens.length ≤ s.generated_tokens.length + n := by
  induction n generalizing i s with
  | zero => simp [generateLoop]
  | succ n ih =>
    unfold generateLoop
    split
    · omega
    · simp only []
      split
      · simp only []; omega
      · split
        · refine Nat.le_trans (ih _ _) ?_
          simp only [List.length_append, List.length_singleton]
          omega
        · simp only [List.length_append, List.length_singleton]
          omega

/-! ## Lemmas on the prefill -/

theorem prefillBatch_eq (T : List llama_token) (i n : Nat) :
    prefillBatch T i n = (List.range' i n).map (prefillEntry T) := by
  unfold prefillBatch
  rw [List.range'_eq_map_range, List.map_map]
  rfl

theorem prefillLoop_succ (e : Engine) (T : List llama_token) (fuel i : Nat) (c : KVCache)
    (acc : List (List BatchEntry)) (hi : i < T.length)
    (hok : e.prefill_decode_ok acc.length = true) :
    prefillLoop e T (fuel + 1) i c acc =
      prefillLoop e T fuel (i + 128)
        (llama_decode c (prefillBatch T i (min 128 (T.length - i))))
        (acc ++ [prefillBatch T i (min 128 (T.length - i))]) := by
  rw [prefillLoop]
  simp [hi, hok]

theorem prefillLoop_done (e : Engine) (T : List llama_token) (fuel i : Nat) (c : KVCache)
    (acc : List (List BatchEntry)) (hi : T.length ≤ i) :
    prefillLoop e T fuel i c acc = { ok := true, cache := c, batches := acc } := by
  cases fuel with
  | zero => rfl
  | succ f =>
    rw [prefillLoop]
    simp [Nat.not_lt.mpr hi]

/-- With every decode succeeding and enough iterations allowed, the loop
submits the entries of the indices `i, …, len(T) - 1` in chunks of 128. -/
theorem prefillLoop_batches (e : Engine) (T : List llama_token)
    (hok : ∀ j, e.prefill_decode_ok j = true) (fuel i : Nat) (c : KVCache)
    (acc : List (List BatchEntry)) (hf : T.length ≤ i + fuel) :
    ∃ bs : List (List BatchEntry),
      (prefillLoop e T fuel i c acc).batches = acc ++ bs ∧
      (prefillLoop e T fuel i c acc).ok = true ∧
      bs.flatten = (List.range' i (T.length - i)).map (prefillEntry T) ∧
      (∀ b ∈ bs, 1 ≤ b.length ∧ b.length ≤ 128) ∧
      (∀ b ∈ bs.dropLast, b.length = 128) ∧
      (T.length ≤ i → bs = []) := by
  induction fuel generalizing i c acc with
  | zero =>
    have hi : T.length ≤ i := by omega
    refine ⟨[], ?_, ?_, ?_, ?_, ?_, ?_⟩
    · simp [prefillLoop]
    · simp [prefillLoop]
    · simp [Nat.sub_eq_zero_of_le hi]
    · simp
    · simp
    · simp
  | succ f ih =>
    by_cases hi : i < T.length
    · rw [prefillLoop_succ e T f i c acc hi (hok _)]
      obtain ⟨bs, hb, hk, hfl, hlen, hdl, hnil⟩ :=
        ih (i + 128) (llama_decode c (prefillBatch T i (min 128 (T.length - i))))
          (acc ++ [prefillBatch T i (min 128 (T.length - i))]) (by omega)
      have hblen : (prefillBatch T i (min 128 (T.length - i))).length =
          min 128 (T.length - i) := by
        rw [prefillBatch_eq]; simp
      refine ⟨prefillBatch T i (min 128 (T.length - i)) :: bs, ?_, hk, ?_, ?_, ?_, ?_⟩
      · rw [hb]; simp
      · rw [List.flatten_cons, hfl, prefillBatch_eq, ← List.map_append]
        congr 1
        by_cases hlast : T.length - i ≤ 128
        · rw [Nat.min_eq_right hlast, show T.length - (i + 128) = 0 by omega]
          simp
        · rw [Nat.min_eq_left (by omega), List.range'_append_1]
          congr 1
          omega
      · intro b hb'
        rcases List.mem_cons.mp hb' with rfl | hb'
        · rw [hblen]; omega
        · exact hlen b hb'
      · intro b hb'
        by_cases hbs : bs = []
        · subst hbs
          simp at hb'
        · rw [List.dropLast_cons_of_ne_nil hbs] at hb'
          rcases List.mem_cons.mp hb' with rfl | hb'
          · rw [hblen]
            have : ¬ T.length ≤ i + 128 := fun h => hbs (hnil h)
            omega
          · exact hdl b hb'
      · intro h; omega
    · have hi : T.length ≤ i := Nat.not_lt.mp hi
      rw [prefillLoop_done e T (f + 1) i c acc hi]
      refine ⟨[], ?_, rfl, ?_, ?_, ?_, ?_⟩
      · simp
      · simp [Nat.sub_eq_zero_of_le hi]
      · simp
      · simp
      · simp

theorem prefill_ok (e : Engine) (T : List llama_token) (k : Nat) (c : KVCache)
    (hok : ∀ j, e.prefill_decode_ok j = true) : (prefill e T k c).ok = true := by
  obtain ⟨bs, _, h, _⟩ := prefillLoop_batches e T hok T.length k c [] (by omega)
  exact h

/-! ## Lemmas on `nativeGenerate` -/

theorem resize_length (v : List llama_token) (n : Nat) : (resize v n).length = n := by
  unfold resize
  simp only [List.length_append, List.length_take, List.length_replicate]
  omega

theorem capPrompt_length_le (n_ctx : Int) (T : List llama_token) (hcap : 128 ≤ n_ctx) :
    (capPrompt n_ctx T).length ≤ (n_ctx - 128).toNat := by
  have hc : ((n_ctx - 128) % 2 ^ 64).toNat ≤ (n_ctx - 128).toNat := by omega
  unfold capPrompt
  simp only []
  split
  · rw [resize_length]; exact hc
  · omega

theorem capPrompt_of_le (n_ctx : Int) (T : List llama_token)
    (h : T.length ≤ ((n_ctx - 128) % 2 ^ 64).toNat) : capPrompt n_ctx T = T := by
  unfold capPrompt
  simp only []
  rw [if_neg (by omega)]

theorem eraseDiscarded_length_le (H : List llama_token) (keep d : Nat) :
    (eraseDiscarded H keep d).length ≤ H.length := by
  unfold eraseDiscarded
  split
  · simp only [List.length_append, List.length_take, List.length_drop]
    omega
  · exact Nat.le_refl _

theorem contextShift_n_keep_le (n_ctx : Int) (H : List llama_token) (cache : KVCache)
    (T : List llama_token) :
    (contextShift n_ctx H cache T (commonPrefixLength H T)).n_keep ≤ H.length := by
  unfold contextShift
  simp only []
  split
  · exact Nat.le_trans (commonPrefixLength_le _ _).1 (eraseDiscarded_length_le _ _ _)
  · exact (commonPrefixLength_le _ _).1

/-- When the model is loaded, the prompt has tokens and the prefill succeeds,
the call reaches the sampling loop and its results are those of the loop. -/
theorem nativeGenerate_reaches_loop (e : Engine) (s : Session) (cb : Bool)
    (T : List llama_token) (n : Int) (hl : s.loaded = true) (hT : T ≠ [])
    (hok : ∀ j, e.prefill_decode_ok j = true) :
    ∃ c0 : KVCache,
      (nativeGenerate e s cb T n).session.g_past_tokens =
        capPrompt s.n_ctx T ++
          (generateLoop e cb n.toNat 0 (genInit (capPrompt s.n_ctx T) c0)).generated_tokens ∧
      (nativeGenerate e s cb T n).ret =
        Ret.text
          (c_str (generateLoop e cb n.toNat 0 (genInit (capPrompt s.n_ctx T) c0)).response) ∧
      (nativeGenerate e s cb T n).n_sample =
        (generateLoop e cb n.toNat 0 (genInit (capPrompt s.n_ctx T) c0)).n_sample ∧
      (nativeGenerate e s cb T n).step_batches =
        (generateLoop e cb n.toNat 0 (genInit (capPrompt s.n_ctx T) c0)).decodes ∧
      (nativeGenerate e s cb T n).callbacks =
        flushPending cb (generateLoop e cb n.toNat 0 (genInit (capPrompt s.n_ctx T) c0)).stream := by
  have hne : T.isEmpty = false := by
    cases T with
    | nil => exact absurd rfl hT
    | cons a l => rfl
  unfold nativeGenerate
  simp only [hl, hne, Bool.not_true, Bool.false_eq_true, if_false, prefill_ok e _ _ _ hok]
  exact ⟨_, rfl, rfl, rfl, rfl, rfl⟩

/-- The stored history is bounded by the old history or by the prompt cap plus
the token budget. -/
theorem nativeGenerate_history_bound (e : Engine) (s : Session) (cb : Bool)
    (T : List llama_token) (n : Int) (hcap : 128 ≤ s.n_ctx) :
    (nativeGenerate e s cb T n).session.g_past_tokens.length ≤
      max s.g_past_tokens.length ((s.n_ctx - 128).toNat + n.toNat) := by
  unfold nativeGenerate
  by_cases hl : s.loaded = true
  · by_cases hT : T.isEmpty = true
    · simp only [hl, hT, Bool.not_true, Bool.false_eq_true, if_false, if_true]
      exact Nat.le_max_left _ _
    · by_cases hpf : (prefill e (capPrompt s.n_ctx T)
          (contextShift s.n_ctx s.g_past_tokens s.cache T
            (commonPrefixLength s.g_past_tokens T)).n_keep
          (trimCache (contextShift s.n_ctx s.g_past_tokens s.cache T
            (commonPrefixLength s.g_past_tokens T)))).ok = true
      · simp only [hl, hT, hpf, Bool.not_true, Bool.false_eq_true, if_false, sampleAndFinish,
          List.length_append]
        refine Nat.le_trans ?_ (Nat.le_max_right _ _)
        have h1 := capPrompt_length_le s.n_ctx T hcap
        have h2 := generateLoop_generated_le e cb n.toNat 0
          (genInit (capPrompt s.n_ctx T)
            (prefill e (capPrompt s.n_ctx T)
              (contextShift s.n_ctx s.g_past_tokens s.cache T
                (commonPrefixLength s.g_past_tokens T)).n_keep
              (trimCache (contextShift s.n_ctx s.g_past_tokens s.cache T
                (commonPrefixLength s.g_past_tokens T)))).cache)
        simp only [genInit, List.length_nil, Nat.zero_add] at h2
        simp only [genInit]
        omega
      · simp only [hl, hT, hpf, Bool.not_true, Bool.not_false, Bool.false_eq_true, if_false,
          if_true, resize_length]
        exact Nat.le_trans (contextShift_n_keep_le _ _ _ _) (Nat.le_max_left _ _)
  · simp only [Bool.not_eq_true] at hl
    simp only [hl, Bool.not_false, if_true]
    exact Nat.le_max_left _ _

theorem nativeGenerate_n_ctx (e : Engine) (s : Session) (cb : Bool)
    (T : List llama_token) (n : Int) : (nativeGenerate e s cb T n).session.n_ctx = s.n_ctx := by
  unfold nativeGenerate sampleAndFinish
  by_cases hl : s.loaded = true
  · by_cases hT : T.isEmpty = true
    · simp [hl, hT]
    · by_cases hpf : (prefill e (capPrompt s.n_ctx T)
          (contextShift s.n_ctx s.g_past_tokens s.cache T
            (commonPrefixLength s.g_past_tokens T)).n_keep
          (trimCache (contextShift s.n_ctx s.g_past_tokens s.cache T
            (commonPrefixLength s.g_past_tokens T)))).ok = true
      · simp [hl, hT, hpf]
      · simp [hl, hT, hpf]
  · simp [hl]

theorem sampledTokens_length (e : Engine) (i k : Nat) : (sampledTokens e i k).length = k := by
  simp [sampledTokens]

theorem sampledTokens_succ (e : Engine) (i k : Nat) :
    sampledTokens e i (k + 1) = sampledTokens e i k ++ [e.sample (i + k)] := by
  simp [sampledTokens, List.range'_concat]

theorem textOf_append (e : Engine) (a b : List llama_token) :
    textOf e (a ++ b) = textOf e a ++ textOf e b := by
  simp [textOf]

/-- The call when the decode of the `k`-th generated token is the first to
fail: the loop has already recorded that token and its text. -/
theorem nativeGenerate_decode_fail (e : Engine) (s : Session) (cb : Bool)
    (T : List llama_token) (nPredict : Int) (k : Nat)
    (hl : s.loaded = true) (hT : T ≠ []) (hpf : ∀ j, e.prefill_decode_ok j = true)
    (hk : 1 ≤ k) (hkn : (k : Int) ≤ nPredict)
    (hrun : ∀ j, j < k → e.stop_generation j = false ∧ e.is_eog (e.sample j) = false)
    (hdec : ∀ j, j < k - 1 → e.step_decode_ok j = true)
    (hfail : e.step_decode_ok (k - 1) = false) :
    (nativeGenerate e s cb T nPredict).ret =
      Ret.text (c_str (textOf e (sampledTokens e 0 k))) ∧
    (nativeGenerate e s cb T nPredict).session.g_past_tokens =
      capPrompt s.n_ctx T ++ sampledTokens e 0 k ∧
    (nativeGenerate e s cb T nPredict).n_sample = k ∧
    (nativeGenerate e s cb T nPredict).callbacks =
      flushPending cb (streamAll cb ((sampledTokens e 0 k).map e.token_to_piece)) := by
  obtain ⟨c0, hh, hr, hn, _, hcb⟩ := nativeGenerate_reaches_loop e s cb T nPredict hl hT hpf
  have hsplit : nPredict.toNat = (k - 1) + ((nPredict.toNat - k) + 1) := by omega
  obtain ⟨s', heq, hresp, hgen, hns, _, _, hst⟩ :=
    generateLoop_run e cb (k - 1) ((nPredict.toNat - k) + 1) 0 (genInit (capPrompt s.n_ctx T) c0)
      (by
        intro j hj
        rw [Nat.zero_add]
        exact ⟨(hrun j (by omega)).1, (hrun j (by omega)).2, hdec j hj⟩)
  rw [Nat.zero_add] at heq
  have hlast := hrun (k - 1) (by omega)
  rw [generateLoop_decode_fail e cb _ (k - 1) s' hlast.1 hlast.2 hfail] at heq
  rw [← hsplit] at heq
  have hks : sampledTokens e 0 k = sampledTokens e 0 (k - 1) ++ [e.sample (k - 1)] := by
    have := sampledTokens_succ e 0 (k - 1)
    rwa [Nat.sub_add_cancel hk, Nat.zero_add] at this
  refine ⟨?_, ?_, ?_, ?_⟩
  · rw [hr, heq]
    simp only [hresp, genInit, List.nil_append, hks, textOf_append]
    simp [textOf]
  · rw [hh, heq]
    simp only [hgen, genInit, List.nil_append, hks]
  · rw [hn, heq]
    simp only [hns, genInit]
    omega
  · rw [hcb, heq]
    simp only [hst, genInit, hks, streamAll, List.map_append, List.foldl_append,
      List.map_cons, List.map_nil, List.foldl_cons, List.foldl_nil]

/-- The call when the stop flag is first seen set at the check that opens
iteration `k`. -/
theorem nativeGenerate_cancel (e : Engine) (s : Session) (cb : Bool)
    (T : List llama_token) (nPredict : Int) (k : Nat)
    (hl : s.loaded = true) (hT : T ≠ []) (hpf : ∀ j, e.prefill_decode_ok j = true)
    (hkn : (k : Int) < nPredict)
    (hrun : ∀ j, j < k → e.stop_generation j = false ∧ e.is_eog (e.sample j) = false ∧
      e.step_decode_ok j = true)
    (hstop : e.stop_generation k = true) :
    (nativeGenerate e s cb T nPredict).n_sample = k ∧
    (nativeGenerate e s cb T nPredict).step_batches.length = k ∧
    (nativeGenerate e s cb T nPredict).ret =
      Ret.text (c_str (textOf e (sampledTokens e 0 k))) ∧
    (nativeGenerate e s cb T nPredict).session.g_past_tokens =
      capPrompt s.n_ctx T ++ sampledTokens e 0 k ∧
    (nativeGenerate e s cb T nPredict).callbacks =
      flushPending cb (streamAll cb ((sampledTokens e 0 k).map e.token_to_piece)) := by
  obtain ⟨c0, hh, hr, hn, hb, hcb⟩ := nativeGenerate_reaches_loop e s cb T nPredict hl hT hpf
  have hsplit : nPredict.toNat = k + ((nPredict.toNat - k - 1) + 1) := by omega
  obtain ⟨s', heq, hresp, hgen, hns, hdl, _, hst⟩ :=
    generateLoop_run e cb k ((nPredict.toNat - k - 1) + 1) 0 (genInit (capPrompt s.n_ctx T) c0)
      (by
        intro j hj
        rw [Nat.zero_add]
        exact hrun j hj)
  rw [Nat.zero_add] at heq
  rw [generateLoop_stop e cb _ k s' hstop, ← hsplit] at heq
  refine ⟨?_, ?_, ?_, ?_, ?_⟩
  · rw [hn, heq, hns]; simp [genInit]
  · rw [hb, heq, hdl]; simp [genInit]
  · rw [hr, heq, hresp]; simp [genInit]
  · rw [hh, heq, hgen]; simp [genInit]
  · rw [hcb, heq, hst]; simp [genInit, streamAll]

/-! ## Lemmas on the cache -/

/-- The sampling loop writes the cache only at the positions
`n_cur, …, n_cur + n - 1`. -/
theorem generateLoop_cache_frame (e : Engine) (cb : Bool) (n i : Nat) (s : GenState) (p : Int)
    (hp : s.n_cur + (n : Int) ≤ p) : (generateLoop e cb n i s).cache p = s.cache p := by
  induction n generalizing i s with
  | zero => rfl
  | succ n ih =>
    rw [generateLoop]
    by_cases h1 : e.stop_generation i = true
    · simp only [h1, if_true]
    · by_cases h2 : e.is_eog (e.sample i) = true
      · simp only [h1, h2, if_true, if_false, Bool.false_eq_true]
      · by_cases h3 : e.step_decode_ok i = true
        · simp only [h1, h2, h3, if_true, if_false, Bool.false_eq_true]
          rw [ih]
          · have hne : p ≠ s.n_cur := by push_cast at hp; omega
            simp [llama_decode, hne]
          · simp only []
            push_cast at hp
            omega
        · simp only [h1, h2, h3, if_false, Bool.false_eq_true]

/-! ## Claims -/

/-- C1: the prefix-matching loop ends with `n_keep` equal to the largest `k`
with `k ≤ len(old)`, `k ≤ len(new)` and `old[i] = new[i]` for all `i < k`; in
particular the two sequences differ at index `n_keep` when `n_keep` is smaller
than both lengths. -/
theorem C1_commonPrefixLength_largest (old new : List llama_token) :
    (commonPrefixLength old new ≤ old.length ∧
      commonPrefixLength old new ≤ new.length ∧
      (∀ i, i < commonPrefixLength old new → old[i]? = new[i]?)) ∧
    (∀ k, k ≤ old.length → k ≤ new.length → (∀ i, i < k → old[i]? = new[i]?) →
      k ≤ commonPrefixLength old new) ∧
    (commonPrefixLength old new < old.length → commonPrefixLength old new < new.length →
      old[commonPrefixLength old new]? ≠ new[commonPrefixLength old new]?) :=
  ⟨⟨(commonPrefixLength_le old new).1, (commonPrefixLength_le old new).2,
      commonPrefixLength_agree old new⟩,
    fun k h1 h2 h => commonPrefixLength_greatest old new k h1 h2 h,
    commonPrefixLength_stop old new⟩

/-- C2: a valid UTF-8 byte string (the concatenation of the characters
`chars`) delivered one byte at a time makes the assembler release, before the
final flush, one chunk per character and in order, and nothing is left
pending.  The callback receives each chunk as a C string: the whole
character, or the empty string for the character U+0000; so no emitted chunk
starts or ends inside a multi-byte character, and when the string has no NUL
byte the chunks are exactly its characters. -/
theorem C2_single_byte_chunks_are_whole_characters (chars : List (List Nat))
    (hvalid : ∀ c ∈ chars, IsUtf8Char c) :
    (streamBytes true chars.flatten).callbacks = chars.map c_str ∧
    (streamBytes true chars.flatten).pending_output = [] ∧
    (∀ c ∈ chars, c_str c = c ∨ (c = [0] ∧ c_str c = [])) ∧
    (0 ∉ chars.flatten → (streamBytes true chars.flatten).callbacks = chars) := by
  have hrun : streamBytes true chars.flatten =
      { pending_output := [], callbacks := chars.map c_str } := by
    unfold streamBytes streamAll
    rw [stream_chars chars hvalid []]
    simp
  refine ⟨by rw [hrun], by rw [hrun], fun c hc => c_str_utf8Char c (hvalid c hc), ?_⟩
  intro hz
  rw [hrun]
  have : ∀ c ∈ chars, c_str c = id c := by
    intro c hc
    apply c_str_of_not_mem
    intro h0
    exact hz (List.mem_flatten.mpr ⟨c, hc, h0⟩)
  simp only []
  rw [List.map_congr_left this, List.map_id]

/-- Witness of C2 on the four characters `A`, `é`, `€` and U+1F600. -/
theorem C2_single_byte_chunks_witness :
    (∀ c ∈ [[0x41], [0xC3, 0xA9], [0xE2, 0x82, 0xAC], [0xF0, 0x9F, 0x98, 0x80]],
        IsUtf8Char c) ∧
    (streamBytes true
        [0x41, 0xC3, 0xA9, 0xE2, 0x82, 0xAC, 0xF0, 0x9F, 0x98, 0x80]).callbacks =
      [[0x41], [0xC3, 0xA9], [0xE2, 0x82, 0xAC], [0xF0, 0x9F, 0x98, 0x80]] :=
  have h : ∀ c ∈ [[0x41], [0xC3, 0xA9], [0xE2, 0x82, 0xAC], [0xF0, 0x9F, 0x98, 0x80]],
      IsUtf8Char c := by
    intro c hc
    simp only [List.mem_cons, List.mem_singleton, List.not_mem_nil, or_false] at hc
    rcases hc with rfl | rfl | rfl | rfl
    · exact Or.inl ⟨0x41, rfl, by decide⟩
    · exact Or.inr (Or.inl ⟨0xC3, 0xA9, rfl, by decide, by decide⟩)
    · exact Or.inr (Or.inr (Or.inl ⟨0xE2, 0x82, 0xAC, rfl, by decide, by decide, by decide⟩))
    · exact Or.inr (Or.inr (Or.inr
        ⟨0xF0, 0x9F, 0x98, 0x80, rfl, by decide, by decide, by decide, by decide⟩))
  ⟨h, (C2_single_byte_chunks_are_whole_characters _ h).2.2.2 (by decide)⟩

/-- C4 (amended): when a context shift is performed with
`keep + d < len(H)`, the history right after the shift step has length
`len(H) - d`, equals `H[0..keep) ++ H[keep+d..)`, and the element originally
at a position `p ≥ keep + d` is now at position `p - d`. -/
theorem C4_shift_splices_history (n_ctx : Int) (H : List llama_token) (cache : KVCache)
    (T : List llama_token) (keep : Nat)
    (hshift : (contextShift n_ctx H cache T keep).performed = true)
    (hlt : keep + (contextShift n_ctx H cache T keep).n_discard < H.length) :
    (contextShift n_ctx H cache T keep).g_past_tokens.length =
        H.length - (contextShift n_ctx H cache T keep).n_discard ∧
    (contextShift n_ctx H cache T keep).g_past_tokens =
        H.take keep ++ H.drop (keep + (contextShift n_ctx H cache T keep).n_discard) ∧
    (∀ p, keep + (contextShift n_ctx H cache T keep).n_discard ≤ p →
      (contextShift n_ctx H cache T keep).g_past_tokens[
          p - (contextShift n_ctx H cache T keep).n_discard]? = H[p]?) := by
  rw [contextShift_history n_ctx H cache T keep hshift]
  rw [contextShift_n_discard n_ctx H cache T keep hshift] at hlt ⊢
  generalize discardCount H.length keep = d at hlt ⊢
  have he : eraseDiscarded H keep d = H.take keep ++ H.drop (keep + d) := by
    unfold eraseDiscarded
    rw [if_pos hlt]
  rw [he]
  refine ⟨?_, rfl, ?_⟩
  · simp only [List.length_append, List.length_take, List.length_drop]
    omega
  · intro p hp
    have hk : (H.take keep).length = keep := by
      rw [List.length_take]; omega
    rw [List.getElem?_append_right (by omega), hk, List.getElem?_drop]
    congr 1
    omega

/-- Witness of C4 (amended): a history of 2000 tokens, a prompt of 250 tokens
sharing its first 50, context 2048: the shift discards 975 tokens and
`50 + 975 < 2000`. -/
theorem C4_shift_splices_history_witness :
    (contextShift 2048 history2000 (cacheOf history2000) prompt250 50).performed = true ∧
    50 + (contextShift 2048 history2000 (cacheOf history2000) prompt250 50).n_discard <
      history2000.length ∧
    (contextShift 2048 history2000 (cacheOf history2000) prompt250 50).g_past_tokens.length =
      history2000.length -
        (contextShift 2048 history2000 (cacheOf history2000) prompt250 50).n_discard :=
  have hshift : (contextShift 2048 history2000 (cacheOf history2000) prompt250 50).performed
      = true :=
    (contextShift_performed 2048 history2000 (cacheOf history2000) prompt250 50).mpr
      (by
        simp only [history2000, prompt250, List.length_append, List.length_replicate]
        decide)
  have hlt : 50 + (contextShift 2048 history2000 (cacheOf history2000) prompt250 50).n_discard <
      history2000.length := by
    rw [contextShift_n_discard _ _ _ _ _ hshift]
    simp only [history2000, List.length_append, List.length_replicate]
    decide
  ⟨hshift, hlt, (C4_shift_splices_history 2048 history2000 (cacheOf history2000) prompt250 50
    hshift hlt).1⟩

/-- Counterexample to C4 as stated: with a history of 1900 tokens and a prompt
of 2000 tokens sharing its first 1800, the shift is performed with
`keep = 1800` and `d = 128`, so `keep + d ≥ 1900`; the guard of line 237 skips
the erase and the history keeps its 1900 tokens instead of `1900 - 128`. -/
theorem C4_shift_past_end_counterexample :
    commonPrefixLength history1900 prompt2000 = 1800 ∧
    history1900.length = 1900 ∧
    (contextShift 2048 history1900 (cacheOf history1900) prompt2000 1800).performed = true ∧
    (contextShift 2048 history1900 (cacheOf history1900) prompt2000 1800).n_discard = 128 ∧
    (contextShift 2048 history1900 (cacheOf history1900) prompt2000 1800).g_past_tokens =
      history1900 ∧
    ¬ ((contextShift 2048 history1900 (cacheOf history1900) prompt2000 1800).g_past_tokens.length
        = history1900.length -
          (contextShift 2048 history1900 (cacheOf history1900) prompt2000 1800).n_discard) := by
  have hlen : history1900.length = 1900 := by
    simp only [history1900, List.length_append, List.length_replicate]
  have hshift : (contextShift 2048 history1900 (cacheOf history1900) prompt2000 1800).performed
      = true :=
    (contextShift_performed 2048 history1900 (cacheOf history1900) prompt2000 1800).mpr
      (by
        simp only [history1900, prompt2000, List.length_append, List.length_replicate]
        decide)
  have hd : (contextShift 2048 history1900 (cacheOf history1900) prompt2000 1800).n_discard
      = 128 := by
    rw [contextShift_n_discard _ _ _ _ _ hshift, hlen]
    decide
  have hh : (contextShift 2048 history1900 (cacheOf history1900) prompt2000 1800).g_past_tokens
      = history1900 := by
    rw [contextShift_history _ _ _ _ _ hshift, hlen]
    unfold eraseDiscarded
    rw [if_neg (by rw [hlen]; decide)]
  refine ⟨?_, hlen, hshift, hd, hh, ?_⟩
  · have h := commonPrefixLength_fork (List.replicate 1800 1) (List.replicate 100 2)
      (List.replicate 200 3) (by rw [List.getElem?_replicate, List.getElem?_replicate]; decide)
    rw [List.length_replicate] at h
    exact h
  · rw [hh, hd, hlen]
    decide

/-- C5: the context shift is performed exactly when
`pastLength + newTokenCount > capacity - 64`, with `keep` the common prefix
length and `newTokenCount = len(prompt) - keep`; when it is performed the
discard count is `max(128, (pastLength - keep) / 2)`, hence at least 128. -/
theorem C5_shift_trigger_and_discard_count (n_ctx : Int) (H : List llama_token)
    (cache : KVCache) (T : List llama_token) :
    ((contextShift n_ctx H cache T (commonPrefixLength H T)).performed = true ↔
      (H.length : Int) + ((T.length : Int) - (commonPrefixLength H T : Int)) > n_ctx - 64) ∧
    ((contextShift n_ctx H cache T (commonPrefixLength H T)).performed = true →
      (contextShift n_ctx H cache T (commonPrefixLength H T)).n_discard =
          max 128 ((H.length - commonPrefixLength H T) / 2) ∧
        128 ≤ (contextShift n_ctx H cache T (commonPrefixLength H T)).n_discard) := by
  refine ⟨contextShift_performed _ _ _ _ _, ?_⟩
  intro h
  rw [contextShift_n_discard _ _ _ _ _ h, discardCount_eq_max]
  exact ⟨rfl, Nat.le_max_left _ _⟩

/-- The scenario of C5: capacity 2048, a history of 2000 tokens, a prompt of
250 tokens of which the first 50 match (200 new tokens): the shift is
performed and discards 975 tokens. -/
theorem C5_scenario_discards_975 :
    history2000.length = 2000 ∧ prompt250.length = 250 ∧
    commonPrefixLength history2000 prompt250 = 50 ∧
    (contextShift 2048 history2000 (cacheOf history2000) prompt250
      (commonPrefixLength history2000 prompt250)).performed = true ∧
    (contextShift 2048 history2000 (cacheOf history2000) prompt250
      (commonPrefixLength history2000 prompt250)).n_discard = 975 := by
  have hk : commonPrefixLength history2000 prompt250 = 50 := by
    have h := commonPrefixLength_fork (List.replicate 50 1) (List.replicate 1950 2)
      (List.replicate 200 3) (by rw [List.getElem?_replicate, List.getElem?_replicate]; decide)
    rw [List.length_replicate] at h
    exact h
  have hH : history2000.length = 2000 := by
    simp only [history2000, List.length_append, List.length_replicate]
  have hT : prompt250.length = 250 := by
    simp only [prompt250, List.length_append, List.length_replicate]
  have hC := C5_shift_trigger_and_discard_count 2048 history2000 (cacheOf history2000) prompt250
  have hp := hC.1.mpr (by rw [hH, hT, hk]; decide)
  refine ⟨hH, hT, hk, hp, ?_⟩
  rw [(hC.2 hp).1, hH, hk]
  decide

/-- C6 (amended): for a context of at least 128 positions and a history
within capacity, the history stored at the end of `nativeGenerate` has at most
`capacity + max(0, maxTokens - 128)` tokens, whatever the engine answers; in
particular it stays within capacity when `maxTokens ≤ 128`, the room the
prompt cap leaves for generation. -/
theorem C6_history_within_capacity_plus_budget (e : Engine) (s : Session) (cb : Bool)
    (T : List llama_token) (nPredict : Int) (hcap : 128 ≤ s.n_ctx)
    (hH : (s.g_past_tokens.length : Int) ≤ s.n_ctx) :
    (nativeGenerate e s cb T nPredict).session.n_ctx = s.n_ctx ∧
    ((nativeGenerate e s cb T nPredict).session.g_past_tokens.length : Int) ≤
      s.n_ctx + max 0 (nPredict - 128) ∧
    (nPredict ≤ 128 →
      ((nativeGenerate e s cb T nPredict).session.g_past_tokens.length : Int) ≤ s.n_ctx) := by
  have hb := nativeGenerate_history_bound e s cb T nPredict hcap
  have hmain : ((nativeGenerate e s cb T nPredict).session.g_past_tokens.length : Int) ≤
      s.n_ctx + max 0 (nPredict - 128) := by
    rcases Nat.le_total s.g_past_tokens.length ((s.n_ctx - 128).toNat + nPredict.toNat) with h | h
    · rw [Nat.max_eq_right h] at hb
      omega
    · rw [Nat.max_eq_left h] at hb
      omega
  refine ⟨nativeGenerate_n_ctx e s cb T nPredict, hmain, ?_⟩
  intro hn
  rw [Int.max_eq_left (by omega)] at hmain
  omega

/-- Witness of C6 (amended): a fresh session of capacity 2048, a one-token
prompt and a budget of 100 tokens. -/
theorem C6_history_within_capacity_witness :
    (128 : Int) ≤ (sessionWith []).n_ctx ∧
    (((sessionWith []).g_past_tokens.length : Nat) : Int) ≤ (sessionWith []).n_ctx ∧
    ((nativeGenerate (scriptedEngine (fun _ => true) (fun _ => false)) (sessionWith []) true
        [1] 100).session.g_past_tokens.length : Int) ≤ (sessionWith []).n_ctx :=
  have h1 : (128 : Int) ≤ (sessionWith []).n_ctx := by decide
  have h2 : (((sessionWith []).g_past_tokens.length : Nat) : Int) ≤ (sessionWith []).n_ctx := by
    decide
  ⟨h1, h2, (C6_history_within_capacity_plus_budget
    (scriptedEngine (fun _ => true) (fun _ => false)) (sessionWith []) true [1] 100 h1 h2).2.2
    (by decide)⟩

/-- Counterexample to C6 as stated: a fresh session of capacity 2048 (empty
history), a one-token prompt, `maxTokens = 2048` and an engine whose decodes
all succeed: the stored history has 2049 tokens. -/
theorem C6_history_exceeds_capacity_counterexample :
    (sessionWith []).g_past_tokens.length = 0 ∧
    (nativeGenerate (scriptedEngine (fun _ => true) (fun _ => false)) (sessionWith []) true
        [1] 2048).session.n_ctx = 2048 ∧
    (nativeGenerate (scriptedEngine (fun _ => true) (fun _ => false)) (sessionWith []) true
        [1] 2048).session.g_past_tokens.length = 2049 := by
  obtain ⟨c0, hh, _⟩ := nativeGenerate_reaches_loop
    (scriptedEngine (fun _ => true) (fun _ => false)) (sessionWith []) true [1] 2048 rfl
    (by decide) (fun _ => rfl)
  obtain ⟨s', heq, _, hgen, _⟩ := generateLoop_run
    (scriptedEngine (fun _ => true) (fun _ => false)) true 2048 0 0
    (genInit (capPrompt (sessionWith []).n_ctx [1]) c0) (fun _ _ => ⟨rfl, rfl, rfl⟩)
  have h0 : generateLoop (scriptedEngine (fun _ => true) (fun _ => false)) true 0 (0 + 2048) s'
      = s' := rfl
  rw [h0] at heq
  have hn : (2048 : Int).toNat = 2048 + 0 := rfl
  have hc : capPrompt (sessionWith []).n_ctx [1] = [1] :=
    capPrompt_of_le _ _ (by decide)
  refine ⟨rfl, nativeGenerate_n_ctx _ _ _ _ _, ?_⟩
  rw [hh, hn, heq, hgen, hc]
  simp only [genInit, List.nil_append, List.length_append, sampledTokens_length,
    List.length_singleton]

/-- C7: when every prefill decode succeeds, the batches submitted for the
prompt `T` from index `k`, concatenated in order, are the entries
`(T[i], position i, outputFlag_i)` for `i = k, …, len(T) - 1` with
`outputFlag_i` true exactly for `i = len(T) - 1`; every batch holds between 1
and 128 entries, every batch but the last exactly 128, and no batch is
submitted when `k ≥ len(T)`. -/
theorem C7_prefill_batches (e : Engine) (T : List llama_token) (k : Nat) (cache : KVCache)
    (hok : ∀ j, e.prefill_decode_ok j = true) :
    (prefill e T k cache).ok = true ∧
    (prefill e T k cache).batches.flatten =
      (List.range' k (T.length - k)).map (fun i =>
        ({ token := T.getD i 0, pos := (i : Int),
           logits := decide (i = T.length - 1) } : BatchEntry)) ∧
    (∀ b ∈ (prefill e T k cache).batches, 1 ≤ b.length ∧ b.length ≤ 128) ∧
    (∀ b ∈ (prefill e T k cache).batches.dropLast, b.length = 128) ∧
    (T.length ≤ k → (prefill e T k cache).batches = []) := by
  obtain ⟨bs, hb, hk, hfl, hlen, hdl, hnil⟩ :=
    prefillLoop_batches e T hok T.length k cache [] (by omega)
  have hbs : (prefill e T k cache).batches = bs := by
    unfold prefill
    rw [hb, List.nil_append]
  rw [hbs]
  exact ⟨hk, hfl, hlen, hdl, hnil⟩

/-- Witness of C7: a prompt of 300 tokens prefilled from index 10. -/
theorem C7_prefill_batches_witness :
    (∀ j, (scriptedEngine (fun _ => true) (fun _ => false)).prefill_decode_ok j = true) ∧
    (prefill (scriptedEngine (fun _ => true) (fun _ => false)) (List.replicate 300 5) 10
      (cacheOf [])).ok = true ∧
    (∀ b ∈ (prefill (scriptedEngine (fun _ => true) (fun _ => false)) (List.replicate 300 5) 10
      (cacheOf [])).batches, 1 ≤ b.length ∧ b.length ≤ 128) :=
  have h : ∀ j, (scriptedEngine (fun _ => true) (fun _ => false)).prefill_decode_ok j = true :=
    fun _ => rfl
  ⟨h, (C7_prefill_batches _ (List.replicate 300 5) 10 (cacheOf []) h).1,
    (C7_prefill_batches _ (List.replicate 300 5) 10 (cacheOf []) h).2.2.1⟩

/-- When the text of a token sequence has no NUL byte, the chunks the callback
receives for it, final flush included, concatenate to that text. -/
theorem streamed_text_of_no_nul (e : Engine) (tokens : List llama_token)
    (hz : 0 ∉ textOf e tokens) :
    (flushPending true (streamAll true (tokens.map e.token_to_piece))).flatten =
      textOf e tokens := by
  unfold textOf at hz ⊢
  exact flush_flatten_of_no_nul _ (fun f hf h0 => hz (List.mem_flatten.mpr ⟨f, hf, h0⟩))

/-- With a context of 2048 positions a prompt of more than 1920 tokens is cut
to 1920 tokens. -/
theorem capPrompt_2048_length (T : List llama_token) (h : 1920 < T.length) :
    (capPrompt 2048 T).length = 1920 := by
  have hcap : ((2048 - 128 : Int) % 2 ^ 64).toNat = 1920 := by decide
  unfold capPrompt
  simp only [hcap]
  rw [if_pos h, resize_length]

/-- C8 (amended): if the first `k - 1` generated tokens are decoded
successfully and the decode of the `k`-th fails, the returned text is the
concatenation of the text of the generated tokens `1..k` as the returned C
string holds it (cut at its first NUL byte; the whole concatenation when it
has none): the text of the `k`-th token is appended and streamed before its
decode is attempted.  The callback has received the text of all `k` tokens
through the streaming buffer and the final flush.  The stored history starts
with the prompt tokens as capped at lines 258–261, followed by the generated
tokens `1..k-1`, and holds nothing beyond the `k`-th generated token. -/
theorem C8_decode_failure_returns_sampled_text (e : Engine) (s : Session) (cb : Bool)
    (T : List llama_token) (nPredict : Int) (k : Nat)
    (hl : s.loaded = true) (hT : T ≠ []) (hpf : ∀ j, e.prefill_decode_ok j = true)
    (hk : 1 ≤ k) (hkn : (k : Int) ≤ nPredict)
    (hrun : ∀ j, j < k → e.stop_generation j = false ∧ e.is_eog (e.sample j) = false)
    (hdec : ∀ j, j < k - 1 → e.step_decode_ok j = true)
    (hfail : e.step_decode_ok (k - 1) = false) :
    (nativeGenerate e s cb T nPredict).ret =
      Ret.text (c_str (textOf e (sampledTokens e 0 k))) ∧
    (0 ∉ textOf e (sampledTokens e 0 k) →
      (nativeGenerate e s cb T nPredict).ret = Ret.text (textOf e (sampledTokens e 0 k))) ∧
    (nativeGenerate e s cb T nPredict).callbacks =
      flushPending cb (streamAll cb ((sampledTokens e 0 k).map e.token_to_piece)) ∧
    (cb = true → 0 ∉ textOf e (sampledTokens e 0 k) →
      (nativeGenerate e s cb T nPredict).callbacks.flatten =
        textOf e (sampledTokens e 0 k)) ∧
    (capPrompt s.n_ctx T ++ sampledTokens e 0 (k - 1)) <+:
      (nativeGenerate e s cb T nPredict).session.g_past_tokens ∧
    (nativeGenerate e s cb T nPredict).session.g_past_tokens <+:
      (capPrompt s.n_ctx T ++ sampledTokens e 0 k) ∧
    (T.length ≤ ((s.n_ctx - 128) % 2 ^ 64).toNat →
      (T ++ sampledTokens e 0 (k - 1)) <+:
        (nativeGenerate e s cb T nPredict).session.g_past_tokens) := by
  obtain ⟨hr, hh, _, hcb⟩ :=
    nativeGenerate_decode_fail e s cb T nPredict k hl hT hpf hk hkn hrun hdec hfail
  have hpre : (capPrompt s.n_ctx T ++ sampledTokens e 0 (k - 1)) <+:
      (nativeGenerate e s cb T nPredict).session.g_past_tokens := by
    rw [hh]
    have hks := sampledTokens_succ e 0 (k - 1)
    rw [Nat.sub_add_cancel hk] at hks
    rw [hks, ← List.append_assoc]
    exact List.prefix_append _ _
  refine ⟨hr, ?_, hcb, ?_, hpre, hh ▸ List.prefix_refl _, ?_⟩
  · intro hz
    rw [hr, c_str_of_not_mem _ hz]
  · intro hc hz
    rw [hcb, hc]
    exact streamed_text_of_no_nul e _ hz
  · intro hfit
    rw [capPrompt_of_le _ _ hfit] at hpre
    exact hpre

/-- Witness of C8 (amended): prompt `[1, 2, 3]`, budget 50, the decodes of the
generated tokens 1–4 succeed and the decode of the 5th fails. -/
theorem C8_decode_failure_witness :
    (scriptedEngine (fun i => decide (i < 4)) (fun _ => false)).step_decode_ok 4 = false ∧
    (nativeGenerate (scriptedEngine (fun i => decide (i < 4)) (fun _ => false)) (sessionWith [])
      true [1, 2, 3] 50).ret = Ret.text [65, 66, 67, 68, 69] := by
  have h := (C8_decode_failure_returns_sampled_text
    (scriptedEngine (fun i => decide (i < 4)) (fun _ => false)) (sessionWith []) true [1, 2, 3]
    50 5 rfl (by decide) (fun _ => rfl) (by decide) (by decide) (fun _ _ => ⟨rfl, rfl⟩)
    (fun j hj => decide_eq_true (show j < 4 from hj)) rfl).1
  refine ⟨rfl, ?_⟩
  rw [h]
  decide

/-- Counterexample to C8 as stated, context 2048, budget 50.  (1) Prompt
`[1, 2, 3]`, the decode of the 5th generated token is the first to fail: the
returned text is `A B C D E`, the text of the tokens 1–5, not of 1–4, and the
stored history ends with all five generated tokens.  (2) A prompt of 2000
tokens, the decode of the 1st generated token fails: the stored history has
1921 tokens, so it does not start with the 2000 prompt tokens.  (3) Prompt
`[1, 2, 3]`, the 2nd generated token is the byte token `0x00`, the decode of
the 3rd fails: the text of the tokens 1–2 is `41 00`, of 1–3 is `41 00 43`,
and the returned text is `41`. -/
theorem C8_failed_token_text_returned_counterexample :
    ((∀ j, j < 4 →
        (scriptedEngine (fun i => decide (i < 4)) (fun _ => false)).step_decode_ok j = true) ∧
      (scriptedEngine (fun i => decide (i < 4)) (fun _ => false)).step_decode_ok 4 = false ∧
      textOf (scriptedEngine (fun i => decide (i < 4)) (fun _ => false))
        (sampledTokens (scriptedEngine (fun i => decide (i < 4)) (fun _ => false)) 0 4) =
        [65, 66, 67, 68] ∧
      (nativeGenerate (scriptedEngine (fun i => decide (i < 4)) (fun _ => false))
        (sessionWith []) true [1, 2, 3] 50).ret = Ret.text [65, 66, 67, 68, 69] ∧
      (nativeGenerate (scriptedEngine (fun i => decide (i < 4)) (fun _ => false))
        (sessionWith []) true [1, 2, 3] 50).session.g_past_tokens =
        [1, 2, 3, 10, 11, 12, 13, 14]) ∧
    (prompt2000.length = 2000 ∧
      (nativeGenerate (scriptedEngine (fun _ => false) (fun _ => false)) (sessionWith []) true
        prompt2000 50).session.g_past_tokens.length = 1921) ∧
    (textOf (nulEngine (fun i => decide (i < 2)) (fun _ => false))
        (sampledTokens (nulEngine (fun i => decide (i < 2)) (fun _ => false)) 0 2) =
        [65, 0] ∧
      textOf (nulEngine (fun i => decide (i < 2)) (fun _ => false))
        (sampledTokens (nulEngine (fun i => decide (i < 2)) (fun _ => false)) 0 3) =
        [65, 0, 67] ∧
      (nativeGenerate (nulEngine (fun i => decide (i < 2)) (fun _ => false)) (sessionWith [])
        true [1, 2, 3] 50).ret = Ret.text [65]) := by
  have hlen : prompt2000.length = 2000 := by
    simp only [prompt2000, List.length_append, List.length_replicate]
  have hne : prompt2000 ≠ [] := by
    intro h
    rw [h] at hlen
    exact absurd hlen (by decide)
  obtain ⟨hr1, hh1, _⟩ := nativeGenerate_decode_fail
    (scriptedEngine (fun i => decide (i < 4)) (fun _ => false)) (sessionWith []) true [1, 2, 3]
    50 5 rfl (by decide) (fun _ => rfl) (by decide) (by decide) (fun _ _ => ⟨rfl, rfl⟩)
    (fun j hj => decide_eq_true (show j < 4 from hj)) rfl
  obtain ⟨_, hh2, _⟩ := nativeGenerate_decode_fail
    (scriptedEngine (fun _ => false) (fun _ => false)) (sessionWith []) true prompt2000
    50 1 rfl hne (fun _ => rfl) (by decide) (by decide) (fun _ _ => ⟨rfl, rfl⟩)
    (fun j hj => absurd hj (Nat.not_lt_zero j)) rfl
  obtain ⟨hr3, _⟩ := nativeGenerate_decode_fail
    (nulEngine (fun i => decide (i < 2)) (fun _ => false)) (sessionWith []) true [1, 2, 3]
    50 3 rfl (by decide) (fun _ => rfl) (by decide) (by decide) (fun _ _ => ⟨rfl, rfl⟩)
    (fun j hj => decide_eq_true (show j < 2 from hj)) rfl
  refine ⟨⟨fun j hj => decide_eq_true hj, rfl, by decide, ?_, ?_⟩, ⟨hlen, ?_⟩,
    ⟨by decide, by decide, ?_⟩⟩
  · rw [hr1]; decide
  · rw [hh1]; decide
  · rw [hh2, List.length_append, sampledTokens_length]
    have hc : (capPrompt (sessionWith []).n_ctx prompt2000).length = 1920 :=
      capPrompt_2048_length prompt2000 (by rw [hlen]; decide)
    rw [hc]
  · rw [hr3]; decide

/-- C9 (amended): if the first `k < maxTokens` sampled tokens are not
end-of-generation tokens and their decodes succeed, and the stop flag is first
seen set at the check that opens step `k + 1`, then `nativeGenerate` makes
exactly `k` sample calls and `k` loop decodes and returns the text of exactly
those `k` tokens as the returned C string holds it (cut at its first NUL
byte; the whole text when it has none).  It stores the prompt tokens as capped
at lines 258–261 (the whole prompt when it has at most `n_ctx - 128` tokens)
followed by exactly those `k` tokens, and the callback has received the text
of the `k` tokens through the streaming buffer and the final flush. -/
theorem C9_cancellation_stops_after_k_tokens (e : Engine) (s : Session) (cb : Bool)
    (T : List llama_token) (nPredict : Int) (k : Nat)
    (hl : s.loaded = true) (hT : T ≠ []) (hpf : ∀ j, e.prefill_decode_ok j = true)
    (hkn : (k : Int) < nPredict)
    (hrun : ∀ j, j < k → e.stop_generation j = false ∧ e.is_eog (e.sample j) = false ∧
      e.step_decode_ok j = true)
    (hstop : e.stop_generation k = true) :
    (nativeGenerate e s cb T nPredict).n_sample = k ∧
    (nativeGenerate e s cb T nPredict).step_batches.length = k ∧
    (nativeGenerate e s cb T nPredict).ret =
      Ret.text (c_str (textOf e (sampledTokens e 0 k))) ∧
    (0 ∉ textOf e (sampledTokens e 0 k) →
      (nativeGenerate e s cb T nPredict).ret = Ret.text (textOf e (sampledTokens e 0 k))) ∧
    (nativeGenerate e s cb T nPredict).session.g_past_tokens =
      capPrompt s.n_ctx T ++ sampledTokens e 0 k ∧
    (T.length ≤ ((s.n_ctx - 128) % 2 ^ 64).toNat →
      (nativeGenerate e s cb T nPredict).session.g_past_tokens = T ++ sampledTokens e 0 k) ∧
    (nativeGenerate e s cb T nPredict).callbacks =
      flushPending cb (streamAll cb ((sampledTokens e 0 k).map e.token_to_piece)) ∧
    (cb = true → 0 ∉ textOf e (sampledTokens e 0 k) →
      (nativeGenerate e s cb T nPredict).callbacks.flatten =
        textOf e (sampledTokens e 0 k)) := by
  obtain ⟨h1, h2, h3, h4, h5⟩ :=
    nativeGenerate_cancel e s cb T nPredict k hl hT hpf hkn hrun hstop
  refine ⟨h1, h2, h3, ?_, h4, ?_, h5, ?_⟩
  · intro hz
    rw [h3, c_str_of_not_mem _ hz]
  · intro hfit
    rw [h4, capPrompt_of_le _ _ hfit]
  · intro hc hz
    rw [h5, hc]
    exact streamed_text_of_no_nul e _ hz

/-- Witness of C9 (amended): cancellation seen after 3 of 50 requested tokens;
the text is `A B C` and the history is the prompt followed by the 3 tokens. -/
theorem C9_cancellation_witness :
    (scriptedEngine (fun _ => true) (fun i => decide (3 ≤ i))).stop_generation 3 = true ∧
    (nativeGenerate (scriptedEngine (fun _ => true) (fun i => decide (3 ≤ i))) (sessionWith [])
      true [1, 2, 3] 50).n_sample = 3 ∧
    (nativeGenerate (scriptedEngine (fun _ => true) (fun i => decide (3 ≤ i))) (sessionWith [])
      true [1, 2, 3] 50).ret = Ret.text [65, 66, 67] ∧
    (nativeGenerate (scriptedEngine (fun _ => true) (fun i => decide (3 ≤ i))) (sessionWith [])
      true [1, 2, 3] 50).session.g_past_tokens = [1, 2, 3, 10, 11, 12] := by
  have h := C9_cancellation_stops_after_k_tokens
    (scriptedEngine (fun _ => true) (fun i => decide (3 ≤ i))) (sessionWith []) true [1, 2, 3]
    50 3 rfl (by decide) (fun _ => rfl) (by decide)
    (fun j hj => ⟨decide_eq_false (show ¬ 3 ≤ j by omega), rfl, rfl⟩) rfl
  refine ⟨rfl, h.1, ?_, ?_⟩
  · rw [h.2.2.1]; decide
  · rw [h.2.2.2.2.2.1 (by decide)]; decide

/-- Counterexample to C9 as stated, context 2048, budget 50, cancellation seen
after 3 generated tokens.  (1) A prompt of 2000 tokens: the stored history has
1923 tokens, not the 2003 of the prompt followed by the 3 tokens.  (2) Prompt
`[1, 2, 3]`, the 2nd generated token is the byte token `0x00`: the text of the
3 tokens is `41 00 43` and the returned text is `41`. -/
theorem C9_capped_prompt_counterexample :
    (prompt2000.length = 2000 ∧
      (nativeGenerate (scriptedEngine (fun _ => true) (fun i => decide (3 ≤ i)))
        (sessionWith []) true prompt2000 50).session.g_past_tokens.length = 1923) ∧
    (textOf (nulEngine (fun _ => true) (fun i => decide (3 ≤ i)))
        (sampledTokens (nulEngine (fun _ => true) (fun i => decide (3 ≤ i))) 0 3) =
        [65, 0, 67] ∧
      (nativeGenerate (nulEngine (fun _ => true) (fun i => decide (3 ≤ i))) (sessionWith [])
        true [1, 2, 3] 50).ret = Ret.text [65]) := by
  have hlen : prompt2000.length = 2000 := by
    simp only [prompt2000, List.length_append, List.length_replicate]
  have hne : prompt2000 ≠ [] := by
    intro h
    rw [h] at hlen
    exact absurd hlen (by decide)
  obtain ⟨_, _, _, hh1, _⟩ := nativeGenerate_cancel
    (scriptedEngine (fun _ => true) (fun i => decide (3 ≤ i))) (sessionWith []) true prompt2000
    50 3 rfl hne (fun _ => rfl) (by decide)
    (fun j hj => ⟨decide_eq_false (show ¬ 3 ≤ j by omega), rfl, rfl⟩) rfl
  obtain ⟨_, _, hr2, _⟩ := nativeGenerate_cancel
    (nulEngine (fun _ => true) (fun i => decide (3 ≤ i))) (sessionWith []) true [1, 2, 3]
    50 3 rfl (by decide) (fun _ => rfl) (by decide)
    (fun j hj => ⟨decide_eq_false (show ¬ 3 ≤ j by omega), rfl, rfl⟩) rfl
  refine ⟨⟨hlen, ?_⟩, ⟨by decide, ?_⟩⟩
  · rw [hh1, List.length_append, sampledTokens_length]
    have hc : (capPrompt (sessionWith []).n_ctx prompt2000).length = 1920 :=
      capPrompt_2048_length prompt2000 (by rw [hlen]; decide)
    rw [hc]
  · rw [hr2]; decide

/-- C10 (evaluation at the failing input): a session of capacity 2048 whose
cache holds its 2000-token history position by position receives the next
prompt, which extends that history by 10 tokens, with a budget of 50 tokens.
Whatever the engine answers, no prefill decode is made, the stored history has
fewer than 2000 tokens, and the cache still holds a token at position 1999:
the cache is not the image of the stored history. -/
theorem C10_capped_prompt_leaves_stale_cache (e : Engine) :
    (sessionWith fullHistory).cache = cacheOf (sessionWith fullHistory).g_past_tokens ∧
    (nativeGenerate e (sessionWith fullHistory) true nextPrompt 50).prefill_batches = [] ∧
    (nativeGenerate e (sessionWith fullHistory) true nextPrompt 50).session.g_past_tokens.length
      < 2000 ∧
    (nativeGenerate e (sessionWith fullHistory) true nextPrompt 50).session.cache 1999 = some 1 ∧
    (nativeGenerate e (sessionWith fullHistory) true nextPrompt 50).session.cache ≠
      cacheOf (nativeGenerate e (sessionWith fullHistory) true nextPrompt 50).session.g_past_tokens
    := by
  have hlen : fullHistory.length = 2000 := by
    simp only [fullHistory, List.length_replicate]
  have hTlen : nextPrompt.length = 2010 := by
    simp only [nextPrompt, fullHistory, List.length_append, List.length_replicate]
  have hk : commonPrefixLength fullHistory nextPrompt = 2000 := by
    rw [nextPrompt, commonPrefixLength_extend, hlen]
  have hne : nextPrompt.isEmpty = false := by
    rw [List.isEmpty_eq_false]
    intro h
    rw [h] at hTlen
    exact absurd hTlen (by decide)
  have hshift : contextShift 2048 fullHistory (cacheOf fullHistory) nextPrompt 2000 =
      { performed := true, n_discard := 128, g_past_tokens := fullHistory,
        cache := llama_memory_seq_add (llama_memory_seq_rm (cacheOf fullHistory) 2000 2128)
          2128 (-1) (-128),
        n_keep := 2000 } := by
    have hd : discardCount 2000 2000 = 128 := by decide
    have he : eraseDiscarded fullHistory 2000 128 = fullHistory := by
      unfold eraseDiscarded
      rw [if_neg (by rw [hlen]; decide)]
    unfold contextShift
    simp only [hlen, hTlen, hd, he, hk]
    rw [if_pos (by decide)]
    rfl
  have hcap : capPrompt 2048 nextPrompt = resize nextPrompt 1920 := by
    unfold capPrompt
    simp only [hTlen]
    rw [if_pos (by decide)]
    rfl
  have hpf : prefill e (resize nextPrompt 1920) 2000
      (llama_memory_seq_add (llama_memory_seq_rm (cacheOf fullHistory) 2000 2128)
        2128 (-1) (-128)) =
      { ok := true,
        cache := llama_memory_seq_add (llama_memory_seq_rm (cacheOf fullHistory) 2000 2128)
          2128 (-1) (-128),
        batches := [] } := by
    unfold prefill
    exact prefillLoop_done e _ _ _ _ _ (by rw [resize_length]; decide)
  have hrun : nativeGenerate e (sessionWith fullHistory) true nextPrompt 50 =
      sampleAndFinish e (sessionWith fullHistory) true (resize nextPrompt 1920)
        { ok := true,
          cache := llama_memory_seq_add (llama_memory_seq_rm (cacheOf fullHistory) 2000 2128)
            2128 (-1) (-128),
          batches := [] } 50 := by
    unfold nativeGenerate
    simp only [sessionWith, hne, hk, hshift, hcap, trimCache, hlen, hpf, Bool.not_true,
      Bool.false_eq_true, if_false, Nat.lt_irrefl]
  have hold : llama_memory_seq_add (llama_memory_seq_rm (cacheOf fullHistory) 2000 2128)
      2128 (-1) (-128) 1999 = some 1 := by
    have h1999 : fullHistory[1999]? = some 1 := by
      rw [fullHistory, List.getElem?_replicate]
      decide
    simp only [llama_memory_seq_add, llama_memory_seq_rm, inPosRange, cacheOf]
    have : (1999 : Int).toNat = 1999 := rfl
    simp [this, h1999]
  have hhist : (nativeGenerate e (sessionWith fullHistory) true nextPrompt
      50).session.g_past_tokens.length < 2000 := by
    rw [hrun]
    simp only [sampleAndFinish, List.length_append, resize_length]
    have h := generateLoop_generated_le e true (50 : Int).toNat 0
      (genInit (resize nextPrompt 1920)
        (llama_memory_seq_add (llama_memory_seq_rm (cacheOf fullHistory) 2000 2128)
          2128 (-1) (-128)))
    have h50 : (50 : Int).toNat = 50 := rfl
    rw [h50] at h ⊢
    simp only [genInit, List.length_nil, Nat.zero_add] at h
    simp only [genInit]
    omega
  have hcache : (nativeGenerate e (sessionWith fullHistory) true nextPrompt
      50).session.cache 1999 = some 1 := by
    rw [hrun]
    simp only [sampleAndFinish]
    rw [generateLoop_cache_frame]
    · exact hold
    · have h50 : (50 : Int).toNat = 50 := rfl
      rw [h50]
      simp only [genInit, resize_length]
      decide
  refine ⟨rfl, ?_, hhist, hcache, ?_⟩
  · rw [hrun]
    rfl
  · intro heq
    have h := congrFun heq 1999
    rw [hcache] at h
    have hnone : cacheOf (nativeGenerate e (sessionWith fullHistory) true nextPrompt
        50).session.g_past_tokens 1999 = none := by
      have h1999 : (1999 : Int).toNat = 1999 := rfl
      simp only [cacheOf, h1999]
      rw [if_neg (by decide)]
      exact List.getElem?_eq_none (by omega)
    rw [hnone] at h
    exact absurd h (by decide)

/-! ## Lemmas on runs of continuation bytes -/

/-- The last byte read by `str.back()` is the byte at index `len - 1`. -/
theorem getLastD_eq_getD (str : List Nat) :
    str.getLastD 0 = str.getD (str.length - 1) 0 := by
  rw [List.getLastD_eq_getLast?, List.getLast?_eq_getElem?, List.getD_eq_getElem?_getD]

/-- When the four bytes the scan reads are all continuation bytes, the loop
runs its four iterations without finding a lead byte and falls out. -/
theorem utf8Scan_four_continuations (str : List Nat) (hlen : 4 ≤ str.length)
    (hcont : ∀ i, i < 4 → str.getD (str.length - 1 - i) 0 &&& 0xC0 = 0x80) :
    utf8Scan str 4 0 = false := by
  have h0 := hcont 0 (by decide)
  have h1 := hcont 1 (by decide)
  have h2 := hcont 2 (by decide)
  have h3 := hcont 3 (by decide)
  have l0 : 0 < str.length := by omega
  have l1 : 1 < str.length := by omega
  have l2 : 2 < str.length := by omega
  have l3 : 3 < str.length := by omega
  simp only [utf8Scan, l0, l1, l2, l3, h0, h1, h2, h3, and_self, if_true, Nat.zero_add,
    Nat.reduceAdd, Nat.reduceLT, Nat.lt_irrefl, false_and, if_false]

/-- On a buffer made of continuation bytes only, the scan never finds a lead
byte, whatever the length of the buffer. -/
theorem utf8Scan_all_continuations (str : List Nat) (h : ∀ b ∈ str, b &&& 0xC0 = 0x80)
    (fuel i : Nat) : utf8Scan str fuel i = false := by
  induction fuel generalizing i with
  | zero => rfl
  | succ f ih =>
    rw [utf8Scan]
    by_cases hc : i < 4 ∧ i < str.length
    · have hidx : str.length - 1 - i < str.length := by omega
      have hmem : str.getD (str.length - 1 - i) 0 ∈ str := by
        rw [List.getD_eq_getElem?_getD, List.getElem?_eq_getElem hidx, Option.getD_some]
        exact List.getElem_mem hidx
      simp only [hc, and_self, if_true, h _ hmem]
      exact ih (i + 1)
    · simp only [hc, if_false]

/-- A non-empty buffer of continuation bytes is never reported complete. -/
theorem is_complete_utf8_all_continuations (str : List Nat) (hne : str ≠ [])
    (h : ∀ b ∈ str, b &&& 0xC0 = 0x80) : is_complete_utf8 str = false := by
  have hlen : 0 < str.length := List.length_pos.mpr hne
  have hlast : str.getLastD 0 ∈ str := by
    rw [getLastD_eq_getD, List.getD_eq_getElem?_getD,
      List.getElem?_eq_getElem (show str.length - 1 < str.length by omega), Option.getD_some]
    exact List.getElem_mem _
  have hhigh := cont_not_ascii _ (h _ hlast)
  have hemp : str.isEmpty = false := by
    cases str with
    | nil => exact absurd rfl hne
    | cons a l => rfl
  unfold is_complete_utf8
  simp only [hemp, Bool.false_eq_true, if_false, hhigh]
  rw [if_neg (by decide)]
  exact utf8Scan_all_continuations str h 4 0

/-- While only continuation bytes arrive, nothing is passed to the callback
and the buffer holds every byte received. -/
theorem streamFold_all_continuations (fragments : List (List Nat))
    (h : ∀ f ∈ fragments, ∀ b ∈ f, b &&& 0xC0 = 0x80) (pending : List Nat)
    (hp : ∀ b ∈ pending, b &&& 0xC0 = 0x80) :
    fragments.foldl (streamPiece true) { pending_output := pending, callbacks := [] } =
      { pending_output := pending ++ fragments.flatten, callbacks := [] } := by
  induction fragments generalizing pending with
  | nil => simp
  | cons f fs ih =>
    have hall : ∀ b ∈ pending ++ f, b &&& 0xC0 = 0x80 := by
      intro b hb
      rcases List.mem_append.mp hb with hb | hb
      · exact hp b hb
      · exact h f (List.mem_cons_self f fs) b hb
    have hstep : streamPiece true { pending_output := pending, callbacks := [] } f =
        { pending_output := pending ++ f, callbacks := [] } := by
      unfold streamPiece
      by_cases hne : pending ++ f = []
      · simp [hne]
      · simp [is_complete_utf8_all_continuations _ hne hall]
    rw [List.foldl_cons, hstep, ih (fun g hg => h g (List.mem_cons_of_mem f hg)) _ hall]
    simp [List.append_assoc]

/-- A buffer of at least four bytes whose last four bytes are continuation
bytes is reported incomplete: the last byte is not ASCII and the scan falls
out of its loop. -/
theorem is_complete_utf8_four_continuations (str : List Nat) (hlen : 4 ≤ str.length)
    (hcont : ∀ i, i < 4 → str.getD (str.length - 1 - i) 0 &&& 0xC0 = 0x80) :
    is_complete_utf8 str = false := by
  have hlast : str.getLastD 0 &&& 0xC0 = 0x80 := by
    rw [getLastD_eq_getD]
    exact hcont 0 (by decide)
  have hhigh := cont_not_ascii _ hlast
  have hemp : str.isEmpty = false := by
    cases str with
    | nil => exact absurd hlen (by decide)
    | cons a l => rfl
  unfold is_complete_utf8
  simp only [hemp, Bool.false_eq_true, if_false, hhigh]
  rw [if_neg (by decide)]
  exact utf8Scan_four_continuations str hlen hcont

/-- Appending continuation bytes to such a buffer keeps its last four bytes
continuation bytes. -/
theorem is_complete_utf8_continuation_tail (str more : List Nat) (hlen : 4 ≤ str.length)
    (hcont : ∀ i, i < 4 → str.getD (str.length - 1 - i) 0 &&& 0xC0 = 0x80)
    (hmore : ∀ b ∈ more, b &&& 0xC0 = 0x80) :
    is_complete_utf8 (str ++ more) = false := by
  apply is_complete_utf8_four_continuations
  · rw [List.length_append]; omega
  · intro i hi
    rw [List.length_append, List.getD_eq_getElem?_getD]
    by_cases him : i < more.length
    · have hidx : str.length + more.length - 1 - i - str.length < more.length := by omega
      rw [List.getElem?_append_right (by omega), List.getElem?_eq_getElem hidx,
        Option.getD_some]
      exact hmore _ (List.getElem_mem hidx)
    · have h := hcont (i - more.length) (by omega)
      rw [List.getD_eq_getElem?_getD] at h
      rw [List.getElem?_append_left (by omega)]
      rw [show str.length + more.length - 1 - i = str.length - 1 - (i - more.length) by omega]
      exact h

/-! ## Lemmas on the keep region -/

/-- The guarded erase does not touch the indices below `n_keep`. -/
theorem eraseDiscarded_getElem?_lt (H : List llama_token) (keep d i : Nat) (hi : i < keep) :
    (eraseDiscarded H keep d)[i]? = H[i]? := by
  unfold eraseDiscarded
  split
  · rename_i hg
    have hk : (H.take keep).length = keep := by
      rw [List.length_take]; omega
    rw [List.getElem?_append_left (by omega), List.getElem?_take_of_lt hi]
  · rfl

theorem eraseDiscarded_take (H : List llama_token) (keep d : Nat) :
    (eraseDiscarded H keep d).take keep = H.take keep := by
  unfold eraseDiscarded
  split
  · rename_i hg
    exact List.take_left' (by rw [List.length_take]; omega)
  · rfl

theorem eraseDiscarded_length_ge (H : List llama_token) (keep d : Nat)
    (hk : keep ≤ H.length) : keep ≤ (eraseDiscarded H keep d).length := by
  unfold eraseDiscarded
  split
  · simp only [List.length_append, List.length_take, List.length_drop]
    omega
  · exact hk

/-- After the guarded erase the prompt still matches the history on the old
common prefix at least. -/
theorem commonPrefixLength_eraseDiscarded_ge (H T : List llama_token) (d : Nat) :
    commonPrefixLength H T ≤
      commonPrefixLength (eraseDiscarded H (commonPrefixLength H T) d) T := by
  apply commonPrefixLength_greatest
  · exact eraseDiscarded_length_ge H _ d (commonPrefixLength_le H T).1
  · exact (commonPrefixLength_le H T).2
  · intro i hi
    rw [eraseDiscarded_getElem?_lt H _ d i hi]
    exact commonPrefixLength_agree H T i hi

theorem contextShift_n_keep (n_ctx : Int) (H : List llama_token) (cache : KVCache)
    (T : List llama_token) (keep : Nat)
    (h : (contextShift n_ctx H cache T keep).performed = true) :
    (contextShift n_ctx H cache T keep).n_keep =
      commonPrefixLength (eraseDiscarded H keep (discardCount H.length keep)) T := by
  unfold contextShift at h ⊢
  simp only [] at h ⊢
  split
  · rfl
  · rename_i hc; simp [hc] at h

/-- C11 (amended): for every buffer of length at least 4 whose last four bytes
are all continuation bytes, `is_complete_utf8` returns `false` (the scan finds
no lead byte and falls out of its loop, so the buffer is held back); the
buffer stays incomplete however many continuation bytes follow, and on an
input consisting only of continuation bytes nothing is passed to the callback
before the final flush: the pending buffer holds every byte received. -/
theorem C11_continuation_run_is_held_back (str : List Nat) (hlen : 4 ≤ str.length)
    (hcont : ∀ i, i < 4 → str.getD (str.length - 1 - i) 0 &&& 0xC0 = 0x80) :
    is_complete_utf8 str = false ∧
    (∀ more : List Nat, (∀ b ∈ more, b &&& 0xC0 = 0x80) →
      is_complete_utf8 (str ++ more) = false) ∧
    (∀ fragments : List (List Nat), (∀ f ∈ fragments, ∀ b ∈ f, b &&& 0xC0 = 0x80) →
      (streamAll true fragments).callbacks = [] ∧
      (streamAll true fragments).pending_output = fragments.flatten ∧
      (flushPending true (streamAll true fragments)).flatten = fragments.flatten) := by
  refine ⟨is_complete_utf8_four_continuations str hlen hcont,
    fun more hmore => is_complete_utf8_continuation_tail str more hlen hcont hmore, ?_⟩
  intro fragments hf
  have h := streamFold_all_continuations fragments hf [] (fun b hb => absurd hb (List.not_mem_nil b))
  have hs : streamAll true fragments =
      { pending_output := fragments.flatten, callbacks := [] } := by
    unfold streamAll
    rw [h, List.nil_append]
  refine ⟨?_, ?_, ?_⟩
  · rw [hs]
  · rw [hs]
  · apply flush_flatten_of_no_nul
    intro f hfm h0
    exact absurd (hf f hfm 0 h0) (by decide)

/-- Witness of C11 (amended): the buffer of four bytes `0x80`. -/
theorem C11_continuation_run_witness :
    4 ≤ [0x80, 0x80, 0x80, 0x80].length ∧
    (∀ i, i < 4 →
      [0x80, 0x80, 0x80, 0x80].getD ([0x80, 0x80, 0x80, 0x80].length - 1 - i) 0 &&& 0xC0
        = 0x80) ∧
    is_complete_utf8 [0x80, 0x80, 0x80, 0x80] = false :=
  have h1 : 4 ≤ [0x80, 0x80, 0x80, 0x80].length := by decide
  have h2 : ∀ i, i < 4 →
      [0x80, 0x80, 0x80, 0x80].getD ([0x80, 0x80, 0x80, 0x80].length - 1 - i) 0 &&& 0xC0
        = 0x80 := by decide
  ⟨h1, h2, (C11_continuation_run_is_held_back [0x80, 0x80, 0x80, 0x80] h1 h2).1⟩

/-- Counterexample to C11 as stated: the buffer of four bytes `0x80` has
length 4 and consists of continuation bytes, yet `is_complete_utf8` returns
`false`, not `true`; and six bytes `0x80` delivered one at a time are all kept
pending, none being released. -/
theorem C11_no_fallback_counterexample :
    (∀ b ∈ [0x80, 0x80, 0x80, 0x80], b &&& 0xC0 = 0x80) ∧
    is_complete_utf8 [0x80, 0x80, 0x80, 0x80] = false ∧
    (streamBytes true [0x80, 0x80, 0x80, 0x80, 0x80, 0x80]).callbacks = [] ∧
    (streamBytes true [0x80, 0x80, 0x80, 0x80, 0x80, 0x80]).pending_output =
      [0x80, 0x80, 0x80, 0x80, 0x80, 0x80] := by
  decide

/-- C12: whenever the context shift is performed, with `keep` the common
prefix length of the history `H` and the prompt `T`, the first `keep`
elements of the history are unchanged by the shift and the common prefix
length recomputed after the shift is at least `keep`; the same holds for the
guarded erase with any discard count `d`, also one that reaches or passes the
end of `H`. -/
theorem C12_keep_region_preserved (n_ctx : Int) (H : List llama_token) (cache : KVCache)
    (T : List llama_token)
    (hshift : (contextShift n_ctx H cache T (commonPrefixLength H T)).performed = true) :
    (contextShift n_ctx H cache T (commonPrefixLength H T)).g_past_tokens.take
        (commonPrefixLength H T) = H.take (commonPrefixLength H T) ∧
    (∀ i, i < commonPrefixLength H T →
      (contextShift n_ctx H cache T (commonPrefixLength H T)).g_past_tokens[i]? = H[i]?) ∧
    commonPrefixLength H T ≤ (contextShift n_ctx H cache T (commonPrefixLength H T)).n_keep ∧
    (∀ d : Nat,
      (eraseDiscarded H (commonPrefixLength H T) d).take (commonPrefixLength H T) =
          H.take (commonPrefixLength H T) ∧
        commonPrefixLength H T ≤
          commonPrefixLength (eraseDiscarded H (commonPrefixLength H T) d) T) := by
  rw [contextShift_history _ _ _ _ _ hshift, contextShift_n_keep _ _ _ _ _ hshift]
  exact ⟨eraseDiscarded_take _ _ _, fun i hi => eraseDiscarded_getElem?_lt _ _ _ i hi,
    commonPrefixLength_eraseDiscarded_ge _ _ _,
    fun d => ⟨eraseDiscarded_take _ _ d, commonPrefixLength_eraseDiscarded_ge _ _ d⟩⟩

/-- Witness of C12: context 2048, a history of 1900 tokens and a prompt of
2000 tokens sharing its first 1800 (the discard range passes the end of the
history), and a history of 2000 tokens with a prompt of 250 tokens sharing its
first 50 (the discard range lies inside the history). -/
theorem C12_keep_region_witness :
    ((contextShift 2048 history1900 (cacheOf history1900) prompt2000
        (commonPrefixLength history1900 prompt2000)).performed = true ∧
      commonPrefixLength history1900 prompt2000 ≤
        (contextShift 2048 history1900 (cacheOf history1900) prompt2000
          (commonPrefixLength history1900 prompt2000)).n_keep) ∧
    ((contextShift 2048 history2000 (cacheOf history2000) prompt250
        (commonPrefixLength history2000 prompt250)).performed = true ∧
      commonPrefixLength history2000 prompt250 ≤
        (contextShift 2048 history2000 (cacheOf history2000) prompt250
          (commonPrefixLength history2000 prompt250)).n_keep) := by
  have h1 : (contextShift 2048 history1900 (cacheOf history1900) prompt2000
      (commonPrefixLength history1900 prompt2000)).performed = true := by
    apply (contextShift_performed _ _ _ _ _).mpr
    have hle := (commonPrefixLength_le history1900 prompt2000).1
    have hH : history1900.length = 1900 := by
      simp only [history1900, List.length_append, List.length_replicate]
    have hT : prompt2000.length = 2000 := by
      simp only [prompt2000, List.length_append, List.length_replicate]
    rw [hH] at hle ⊢
    rw [hT]
    omega
  have h2 : (contextShift 2048 history2000 (cacheOf history2000) prompt250
      (commonPrefixLength history2000 prompt250)).performed = true := by
    apply (contextShift_performed _ _ _ _ _).mpr
    have hle := (commonPrefixLength_le history2000 prompt250).2
    have hH : history2000.length = 2000 := by
      simp only [history2000, List.length_append, List.length_replicate]
    have hT : prompt250.length = 250 := by
      simp only [prompt250, List.length_append, List.length_replicate]
    rw [hT] at hle ⊢
    rw [hH]
    omega
  exact ⟨⟨h1, (C12_keep_region_preserved 2048 history1900 (cacheOf history1900) prompt2000
      h1).2.2.1⟩,
    ⟨h2, (C12_keep_region_preserved 2048 history2000 (cacheOf history2000) prompt250
      h2).2.2.1⟩⟩

end LlamaAndroid
